import Mathlib

/-!
# libtrace_tutorial: the IAT quantizer and the interval counter

A shallow embedding of the two per-packet routines of the repository,

* `pt_quantize_iat.c` : `per_packet`, the argument checks and the packet
  loop of `main`
* `pt_count_packet.c` : `per_packet`, the argument checks and the packet
  loop of `main`

Conventions of the embedding.

* The module-level variables of each C file become one record that is passed
  through every call.
* `time_t`, `suseconds_t` and `long int` values are integers (`Int`).  Signed
  overflow is undefined in C, so the arithmetic on them is the exact one.
* `uint64_t` counters are naturals reduced modulo `2^64` after every `++`
  and `--`, as C defines.
* `quantized_iat_count` is a raw pointer into the heap: the cells reachable
  from it are a map from index to contents, and the number of cells that
  `malloc` reserved is the separate value `iat_count_size`.
* `printf` output is dropped, except the per-window lines of
  `pt_count_packet.c`, which are returned as records.
* A `while` loop is a function with a fuel argument that answers `none` when
  the fuel is used up; `per_packet` hands it a fuel that is proved to be
  enough for every positive step (`progress_loop_returns`,
  `interval_loop_returns`).  With a step of zero a loop whose test holds
  never ends in C and answers `none` here.
* The `double time_interval` reaches the arithmetic only through integer
  casts; the functions take the cast values as integer arguments.
-/

/-- Modulus of `uint64_t` arithmetic. -/
def UINT64_MOD : Nat := 2 ^ 64

/-- The `++` operator on a `uint64_t`. -/
def u64_incr (x : Nat) : Nat := (x + 1) % UINT64_MOD

/-- The `--` operator on a `uint64_t`. -/
def u64_decr (x : Nat) : Nat := (x + UINT64_MOD - 1) % UINT64_MOD

namespace PtQuantizeIat

/-- The `struct timeval` returned by `trace_get_timeval`. -/
structure Timeval where
  tv_sec : Int
  tv_usec : Int
deriving DecidableEq, Repr

/-- Global variables of `pt_quantize_iat.c` (lines 31-41). -/
structure Globals where
  next_interval_time_sec : Int
  initial_time_sec : Int
  initial_time_usec : Int
  current_time_sec : Int
  current_time_usec : Int
  iat_sec : Int
  iat_usec : Int
  quantized_iat : Int
  negtive_iat_count : Nat
  exceed_max_iat_count : Nat
  quantized_iat_count : Nat → Nat

/-- The globals at program start: every scalar is `0` (lines 31-40); the
cells behind `quantized_iat_count` hold whatever `malloc` left there
(line 229), given as `mem`. -/
def initial_globals (mem : Nat → Nat) : Globals :=
  { next_interval_time_sec := 0
    initial_time_sec := 0
    initial_time_usec := 0
    current_time_sec := 0
    current_time_usec := 0
    iat_sec := 0
    iat_usec := 0
    quantized_iat := 0
    negtive_iat_count := 0
    exceed_max_iat_count := 0
    quantized_iat_count := mem }

/-- Heap contents in which every cell is zero. -/
def zero_mem : Nat → Nat := fun _ => 0

/-- The local `time_interval = 10` of `main` (line 73), after the cast
`(time_t) (time_interval)` that `per_packet` applies to it. -/
def time_interval : Int := 10

/-- Lines 430-434: the first-packet branch. -/
def first_packet (ts : Timeval) (time_interval : Int) (g : Globals) : Globals :=
  if g.next_interval_time_sec = 0 then
    { g with
      next_interval_time_sec := ts.tv_sec + time_interval
      initial_time_sec := ts.tv_sec
      initial_time_usec := ts.tv_usec }
  else g

/-- Lines 444-448: `while (ts.tv_sec > next_interval_time_sec)
next_interval_time_sec += time_interval;` on the one variable it changes. -/
def progress_loop : Nat → Int → Int → Int → Option Int
  | 0, _, _, _ => none
  | fuel + 1, time_interval, tv_sec, next_interval_time_sec =>
    if tv_sec > next_interval_time_sec then
      progress_loop fuel time_interval tv_sec (next_interval_time_sec + time_interval)
    else some next_interval_time_sec

/-- Fuel handed to `progress_loop`: one more than the distance in seconds to
the timestamp, enough for every step of at least one second. -/
def progress_fuel (tv_sec next_interval_time_sec : Int) : Nat :=
  (tv_sec - next_interval_time_sec).toNat + 1

/-- Lines 458-464: the IAT computation behind its guard, then the store of
the current timestamp. -/
def iat_calculation (ts : Timeval) (g : Globals) : Globals :=
  let g1 :=
    if g.next_interval_time_sec ≠ 0 then
      { g with
        iat_sec := ts.tv_sec - g.current_time_sec
        iat_usec := (ts.tv_usec - g.current_time_usec)
                      + (ts.tv_sec - g.current_time_sec) * 1000000 }
    else g
  { g1 with current_time_sec := ts.tv_sec, current_time_usec := ts.tv_usec }

/-- Lines 430-464: everything `per_packet` does before it classifies
`iat_usec`. -/
def before_quantize (ts : Timeval) (time_interval : Int) (g : Globals) : Option Globals :=
  let g1 := first_packet ts time_interval g
  match progress_loop (progress_fuel ts.tv_sec g1.next_interval_time_sec) time_interval
      ts.tv_sec g1.next_interval_time_sec with
  | none => none
  | some next => some (iat_calculation ts { g1 with next_interval_time_sec := next })

/-- Lines 470-479: classification of `iat_usec`.  The cast
`(uint64_t) quantized_iat` is applied to a value that is not negative. -/
def quantize (quantize_time_order iat_count_size : Nat) (g : Globals) : Globals :=
  if g.iat_usec < 0 then
    { g with negtive_iat_count := u64_incr g.negtive_iat_count }
  else
    let g1 := { g with quantized_iat := g.iat_usec >>> quantize_time_order }
    if g1.quantized_iat.toNat > iat_count_size then
      { g1 with exceed_max_iat_count := u64_incr g1.exceed_max_iat_count }
    else
      { g1 with
        quantized_iat_count :=
          Function.update g1.quantized_iat_count g1.quantized_iat.toNat
            (u64_incr (g1.quantized_iat_count g1.quantized_iat.toNat)) }

/-- The function `per_packet` of `pt_quantize_iat.c` (lines 409-483). -/
def per_packet (ts : Timeval) (time_interval : Int)
    (quantize_time_order iat_count_size : Nat) (g : Globals) : Option Globals :=
  (before_quantize ts time_interval g).map (quantize quantize_time_order iat_count_size)

/-- Line 261-263 of `main`: `per_packet` on every packet of the trace. -/
def read_packets (quantize_time_order iat_count_size : Nat) :
    List Timeval → Globals → Option Globals
  | [], g => some g
  | ts :: rest, g =>
    (per_packet ts time_interval quantize_time_order iat_count_size g).bind
      (read_packets quantize_time_order iat_count_size rest)

/-- Lines 260-264 of `main`: the packet loop followed by
`exceed_max_iat_count--`. -/
def process_trace (quantize_time_order iat_count_size : Nat)
    (trace : List Timeval) (g : Globals) : Option Globals :=
  (read_packets quantize_time_order iat_count_size trace g).map
    (fun g1 => { g1 with exceed_max_iat_count := u64_decr g1.exceed_max_iat_count })

/-- The first `iat_count_size` cells, as `main` prints them (lines 288-290). -/
def buckets (iat_count_size : Nat) (g : Globals) : List Nat :=
  (List.range iat_count_size).map g.quantized_iat_count

end PtQuantizeIat

namespace PtCountPacket

/-- The `struct timespec` returned by `trace_get_timespec`. -/
structure Timespec where
  tv_sec : Int
  tv_nsec : Int
deriving DecidableEq, Repr

/-- Global variables of `pt_count_packet.c` (lines 29-31). -/
structure Globals where
  packet_count : Nat
  next_interval_time_sec : Int
  next_interval_time_nsec : Int
deriving DecidableEq, Repr

/-- The globals at program start (lines 29-31). -/
def initial_globals : Globals :=
  { packet_count := 0, next_interval_time_sec := 0, next_interval_time_nsec := 0 }

/-- One line printed by the `printf` of line 298: the window end and the
number of packets counted in the window. -/
structure Record where
  window_end_sec : Int
  window_end_nsec : Int
  count : Nat
deriving DecidableEq, Repr

/-- Lines 287-291: the first-packet branch.  `interval_sec` stands for
`(time_t) (time_interval)` and `interval_nsec` for
`(long int) ((time_interval - (time_t) time_interval) * 1000000000)`. -/
def first_packet (ts : Timespec) (interval_sec interval_nsec : Int) (g : Globals) : Globals :=
  if g.next_interval_time_sec = 0 then
    { g with
      next_interval_time_sec := ts.tv_sec + interval_sec
      next_interval_time_nsec := ts.tv_nsec + interval_nsec }
  else g

/-- Lines 299-305: the body of the loop after its `printf`. -/
def advance (interval_sec interval_nsec : Int) (g : Globals) : Globals :=
  let g1 := { g with packet_count := 0 }
  let g2 := { g1 with next_interval_time_sec := g1.next_interval_time_sec + interval_sec }
  let g3 := { g2 with next_interval_time_nsec := g2.next_interval_time_nsec + interval_nsec }
  if g3.next_interval_time_nsec ≥ 1000000000 then
    { g3 with
      next_interval_time_sec := g3.next_interval_time_sec + 1
      next_interval_time_nsec := g3.next_interval_time_nsec - 1000000000 }
  else g3

/-- Lines 297-306: the `while` loop; the lines it prints are returned in
the order of printing. -/
def interval_loop : Nat → Timespec → Int → Int → Globals → Option (Globals × List Record)
  | 0, _, _, _, _ => none
  | fuel + 1, ts, interval_sec, interval_nsec, g =>
    if ts.tv_sec > g.next_interval_time_sec ∧ ts.tv_nsec > g.next_interval_time_nsec then
      (interval_loop fuel ts interval_sec interval_nsec (advance interval_sec interval_nsec g)).map
        (fun r => (r.1, ⟨g.next_interval_time_sec, g.next_interval_time_nsec, g.packet_count⟩ :: r.2))
    else some (g, [])

/-- A time as a count of nanoseconds. -/
def total_nsec (sec nsec : Int) : Int := sec * 1000000000 + nsec

/-- Fuel handed to `interval_loop`: one more than the distance in
nanoseconds from the boundary to the timestamp, enough for every window
length of at least one nanosecond. -/
def interval_fuel (ts : Timespec) (g : Globals) : Nat :=
  (total_nsec ts.tv_sec ts.tv_nsec
    - total_nsec g.next_interval_time_sec g.next_interval_time_nsec).toNat + 1

/-- The function `per_packet` of `pt_count_packet.c` (lines 267-310): the new
globals and the lines printed by the call. -/
def per_packet (ts : Timespec) (interval_sec interval_nsec : Int) (g : Globals) :
    Option (Globals × List Record) :=
  let g1 := first_packet ts interval_sec interval_nsec g
  match interval_loop (interval_fuel ts g1) ts interval_sec interval_nsec g1 with
  | none => none
  | some (g2, out) => some ({ g2 with packet_count := u64_incr g2.packet_count }, out)

/-- Lines 210-212 of `main`: `per_packet` on every packet of the trace; the
lines printed by all the calls, in order. -/
def read_packets (interval_sec interval_nsec : Int) :
    List Timespec → Globals → Option (Globals × List Record)
  | [], g => some (g, [])
  | ts :: rest, g =>
    match per_packet ts interval_sec interval_nsec g with
    | none => none
    | some (g1, out) =>
      (read_packets interval_sec interval_nsec rest g1).map (fun r => (r.1, out ++ r.2))

/-- The casts `(time_t) x` and `(long int) x` of a `double`: the fraction is
dropped, toward zero.  The `double` is taken as the rational number it
holds. -/
def cast_to_integer (x : ℚ) : Int := if 0 ≤ x then ⌊x⌋ else ⌈x⌉

/-- The expression `(time_t) (time_interval)` of lines 288 and 300. -/
def interval_sec_of (time_interval : ℚ) : Int := cast_to_integer time_interval

/-- Rounding of a rational to the nearest integer, ties to the even one. -/
def round_half_even (x : ℚ) : Int :=
  if Int.fract x < 1 / 2 then ⌊x⌋
  else if 1 / 2 < Int.fract x then ⌊x⌋ + 1
  else if ⌊x⌋ % 2 = 0 then ⌊x⌋ else ⌊x⌋ + 1

/-- The binary exponent of the `double` nearest to `x`: the `e` with
`2^e ≤ |x| < 2^(e+1)`, and `-1022` in the subnormal range. -/
def binade (x : ℚ) : Int := max (Int.log 2 |x|) (-1022)

/-- The result of an arithmetic operation on doubles whose exact value is
`x`: `x` rounded to a significand of 53 bits, to nearest, ties to even.
Results beyond the largest `double` do not arise from the products of lines
289 and 301, which are below `10^9`. -/
def round_to_double (x : ℚ) : ℚ :=
  (round_half_even (x / 2 ^ (binade x - 52)) : ℚ) * 2 ^ (binade x - 52)

/-- The expression
`(long int) ((time_interval - (time_t) time_interval) * 1000000000)` of
lines 289 and 301.  The difference is exact on doubles; the product is
rounded to a `double` before the cast. -/
def interval_nsec_of (time_interval : ℚ) : Int :=
  cast_to_integer
    (round_to_double ((time_interval - (interval_sec_of time_interval : ℚ)) * 1000000000))

end PtCountPacket

/-! Error codes of `lib_error.h`, as values of `ec_t`. -/

namespace LibError

def EC_SUCCESS : Int := 0
def EC_CLI_INPUT_FILE_NOT_FOUND : Int := 0x1004
def EC_CLI_NO_INPUT_OPTION : Int := 0x1801
def EC_CLI_NO_QUANTIZE_TIME_OPTION : Int := 0x1802
def EC_CLI_NO_TIME_INTERVAL_OPTION : Int := 0x1804
def EC_CLI_INVALID_INPUT_FILE : Int := 0x1C01
def EC_CLI_INVALID_QUANTIZE_TIME : Int := 0x1C02
def EC_CLI_INVALID_TIME_INTERVAL : Int := 0x1C04
def EC_CLI_INVALID_COUNT_SIZE : Int := 0x1C05

/-- What `main` learns about the string behind `input_file`: whether
`strstr(input_file, ".pcap")` finds the suffix and whether
`access(input_file, F_OK)` succeeds. -/
structure InputFile where
  names_pcap : Bool
  accessible : Bool
deriving DecidableEq, Repr

end LibError

namespace PtCountPacket

open LibError

/-- The locals of `main` in `pt_count_packet.c` that the argument checks
read, as they stand after the parsing loop (lines 58-63, 93-130).
`input_file = none` is the `NULL` pointer; `time_interval` is the rational
number held by the `double` (infinities and NaN are left out). -/
structure Arguments where
  ec : Int
  input_file : Option InputFile
  time_interval : ℚ

/-- Lines 137-145: check for required arguments. -/
def required_arguments (a : Arguments) : Arguments :=
  if a.ec = EC_SUCCESS then
    let a1 := if a.input_file = none then { a with ec := EC_CLI_NO_INPUT_OPTION } else a
    if a1.time_interval ≤ 0 then { a1 with ec := EC_CLI_NO_TIME_INTERVAL_OPTION } else a1
  else a

/-- Lines 150-162: check for valid arguments. -/
def valid_arguments (a : Arguments) : Arguments :=
  if a.ec = EC_SUCCESS then
    match a.input_file with
    | none => a
    | some file =>
      let a1 :=
        if file.names_pcap = false then { a with ec := EC_CLI_INVALID_INPUT_FILE }
        else if a.time_interval ≤ 0 then { a with ec := EC_CLI_INVALID_TIME_INTERVAL }
        else a
      if file.accessible = false then { a1 with ec := EC_CLI_INPUT_FILE_NOT_FOUND } else a1
  else a

/-- Lines 137-162: the error code with which `main` reaches the test of
line 171. -/
def argument_checks (a : Arguments) : Int :=
  (valid_arguments (required_arguments a)).ec

/-- Lines 171-175: `main` goes on to open the trace and call `per_packet`
only with `ec == EC_SUCCESS`; otherwise it leaves through
`exit(EXIT_FAILURE)`. -/
def main_goes_on (a : Arguments) : Bool := decide (argument_checks a = EC_SUCCESS)

end PtCountPacket

namespace PtQuantizeIat

open LibError

/-- Conversion of a `long int` to `uint64_t`. -/
def to_uint64 (v : Int) : Nat := (v % (UINT64_MOD : Int)).toNat

/-- The locals of `main` in `pt_quantize_iat.c` that the argument checks and
the allocation read, as they stand during the parsing loop (lines 70-88). -/
structure Arguments where
  ec : Int
  input_file : Option InputFile
  quantize_time_order : Nat
  iat_count_size : Nat

/-- The locals before the parsing loop, with the defaults of lines 70-85. -/
def default_arguments : Arguments :=
  { ec := 0, input_file := none, quantize_time_order := 0, iat_count_size := 20 }

/-- Lines 127-135: the value `v` that `strtol` returns for the argument of
`-q` is stored in the `uint64_t quantize_time_order`; `errno_set` and
`no_digits` are the two failure tests that follow. -/
def parse_quantize_time (v : Int) (errno_set no_digits : Bool) (a : Arguments) : Arguments :=
  let a1 := { a with quantize_time_order := to_uint64 v }
  let a2 := if errno_set then { a1 with ec := EC_CLI_INVALID_QUANTIZE_TIME } else a1
  if no_digits then { a2 with ec := EC_CLI_INVALID_QUANTIZE_TIME } else a2

/-- Lines 146-154: the value `s` that `strtol` returns for the argument of
`-s` is stored in the `uint64_t iat_count_size`. -/
def parse_count_size (s : Int) (errno_set no_digits : Bool) (a : Arguments) : Arguments :=
  let a1 := { a with iat_count_size := to_uint64 s }
  let a2 := if errno_set then { a1 with ec := EC_CLI_INVALID_COUNT_SIZE } else a1
  if no_digits then { a2 with ec := EC_CLI_INVALID_COUNT_SIZE } else a2

/-- Lines 189-196: check for required arguments. -/
def required_arguments (a : Arguments) : Arguments :=
  if a.ec = EC_SUCCESS then
    if a.input_file = none then { a with ec := EC_CLI_NO_INPUT_OPTION }
    else if a.quantize_time_order = 0 then { a with ec := EC_CLI_NO_QUANTIZE_TIME_OPTION }
    else a
  else a

/-- Lines 201-212: check for valid arguments. -/
def valid_arguments (a : Arguments) : Arguments :=
  if a.ec = EC_SUCCESS then
    match a.input_file with
    | none => a
    | some file =>
      let a1 :=
        if file.names_pcap = false then { a with ec := EC_CLI_INVALID_INPUT_FILE }
        else if a.quantize_time_order < 1 then { a with ec := EC_CLI_INVALID_QUANTIZE_TIME }
        else a
      if file.accessible = false then { a1 with ec := EC_CLI_INPUT_FILE_NOT_FOUND } else a1
  else a

/-- Lines 189-212: the error code with which `main` reaches the test of
line 221. -/
def argument_checks (a : Arguments) : Int :=
  (valid_arguments (required_arguments a)).ec

/-- Lines 221-229: `main` goes on to reserve `iat_count_size` cells and to
call `per_packet` only with `ec == EC_SUCCESS`; otherwise it leaves through
`exit(EXIT_FAILURE)`. -/
def main_goes_on (a : Arguments) : Bool := decide (argument_checks a = EC_SUCCESS)

/-- Lines 444-448 once more: the number of times the body of the progress
loop runs. -/
def progress_loop_runs : Nat → Int → Int → Int → Option Nat
  | 0, _, _, _ => none
  | fuel + 1, time_interval, tv_sec, next_interval_time_sec =>
    if tv_sec > next_interval_time_sec then
      (progress_loop_runs fuel time_interval tv_sec
        (next_interval_time_sec + time_interval)).map (fun runs => runs + 1)
    else some 0

/-- Whether some call of the packet loop (lines 261-263) computes, from an
`iat_usec` that is not negative, a quantized index equal to
`iat_count_size`. -/
def index_reaches_size (quantize_time_order iat_count_size : Nat) :
    List Timeval → Globals → Bool
  | [], _ => false
  | ts :: rest, g =>
    match before_quantize ts time_interval g with
    | none => false
    | some gm =>
      (decide (0 ≤ gm.iat_usec)
          && decide ((gm.iat_usec >>> quantize_time_order).toNat = iat_count_size))
        || index_reaches_size quantize_time_order iat_count_size rest
            (quantize quantize_time_order iat_count_size gm)

/-- Lines 279-284 of `main`: the elapsed time `(elapsed_time_sec,
elapsed_time_nsec)` from two readings of the clock. -/
def elapsed_time (start_time end_time : PtCountPacket.Timespec) : Int × Int :=
  let elapsed_time_sec := end_time.tv_sec - start_time.tv_sec
  let elapsed_time_nsec := end_time.tv_nsec - start_time.tv_nsec
  if elapsed_time_nsec < 0 then (elapsed_time_sec - 1, elapsed_time_nsec + 1000000000)
  else (elapsed_time_sec, elapsed_time_nsec)

end PtQuantizeIat

namespace PtCountPacket

/-- Lines 227-232 of `main`: the elapsed time `(elapsed_time_sec,
elapsed_time_nsec)` from two readings of the clock. -/
def elapsed_time (start_time end_time : Timespec) : Int × Int :=
  let elapsed_time_sec := end_time.tv_sec - start_time.tv_sec
  let elapsed_time_nsec := end_time.tv_nsec - start_time.tv_nsec
  if elapsed_time_nsec < 0 then (elapsed_time_sec - 1, elapsed_time_nsec + 1000000000)
  else (elapsed_time_sec, elapsed_time_nsec)

end PtCountPacket

namespace PtQuantizeIat

/-- Globals as they stand after one packet stamped 0 s 1000 us was read with
`quantize_time_order = 4` and `iat_count_size = 3` from zeroed memory. -/
def seeded_globals : Globals :=
  { next_interval_time_sec := 10
    initial_time_sec := 0
    initial_time_usec := 1000
    current_time_sec := 0
    current_time_usec := 1000
    iat_sec := 0
    iat_usec := 1000
    quantized_iat := 62
    negtive_iat_count := 0
    exceed_max_iat_count := 1
    quantized_iat_count := zero_mem }

/-- The globals `seeded_globals` after a further packet stamped 0 s 900 us,
which arrives 100 us before its predecessor and leaves through the
negative branch. -/
def after_negative : Globals :=
  { seeded_globals with
    current_time_usec := 900
    iat_usec := -100
    negtive_iat_count := 1 }

/-- The globals `after_negative` at line 470 of the next call, for a packet
stamped 0 s 950 us. -/
def after_negative_next : Globals :=
  { after_negative with
    current_time_usec := 950
    iat_usec := 50 }

end PtQuantizeIat

namespace InitialQuantizer

open PtQuantizeIat

/-- The quantizer state of the design with an explicit `Initial`
classification: the three results and the previous timestamp, absent until
the first sample. -/
structure IATHistogramState where
  buckets : Nat → Nat
  negative_count : Nat
  overflow_count : Nat
  previous_timestamp : Option Timeval

/-- The state before any sample. -/
def fresh_state (mem : Nat → Nat) : IATHistogramState :=
  { buckets := mem, negative_count := 0, overflow_count := 0, previous_timestamp := none }

/-- One `observe` of the design with an explicit `Initial` state: the first
sample is stored and not classified; every later sample is classified by
the rules of `per_packet` (negative, then index above `bucket_count`, then
bucket). -/
def observe (bucket_shift bucket_count : Nat) (ts : Timeval) (s : IATHistogramState) :
    IATHistogramState :=
  match s.previous_timestamp with
  | none => { s with previous_timestamp := some ts }
  | some prev =>
    let delta := (ts.tv_sec - prev.tv_sec) * 1000000 + (ts.tv_usec - prev.tv_usec)
    let s1 := { s with previous_timestamp := some ts }
    if delta < 0 then
      { s1 with negative_count := u64_incr s1.negative_count }
    else if (delta >>> bucket_shift).toNat > bucket_count then
      { s1 with overflow_count := u64_incr s1.overflow_count }
    else
      { s1 with
        buckets := Function.update s1.buckets (delta >>> bucket_shift).toNat
          (u64_incr (s1.buckets (delta >>> bucket_shift).toNat)) }

/-- Every sample of a stream observed in order. -/
def observe_all (bucket_shift bucket_count : Nat) :
    List Timeval → IATHistogramState → IATHistogramState
  | [], s => s
  | ts :: rest, s => observe_all bucket_shift bucket_count rest (observe bucket_shift bucket_count ts s)

/-- The relation kept between the globals of `pt_quantize_iat.c` and the
state of the explicit design once the first sample has been counted as an
overflow: same cells, same negative count, one overflow more in the
globals, same previous timestamp, and a seeded progress boundary. -/
def Matches (g : Globals) (s : IATHistogramState) : Prop :=
  g.quantized_iat_count = s.buckets ∧
  g.negtive_iat_count = s.negative_count ∧
  g.exceed_max_iat_count = u64_incr s.overflow_count ∧
  s.overflow_count < UINT64_MOD ∧
  s.previous_timestamp = some ⟨g.current_time_sec, g.current_time_usec⟩ ∧
  0 < g.next_interval_time_sec

end InitialQuantizer

namespace PtQuantizeIat

/-- The value that a call classifies: `iat_usec` as it stands at line 470. -/
def classified_iat (ts : Timeval) (time_interval : Int) (g : Globals) : Option Int :=
  (before_quantize ts time_interval g).map (fun gm => gm.iat_usec)

/-! ## The progress loop returns -/

theorem progress_loop_returns (step tv_sec : Int) (hstep : 0 < step) :
    ∀ (fuel : Nat) (next : Int), (tv_sec - next).toNat < fuel →
      ∃ r, progress_loop fuel step tv_sec next = some r ∧ tv_sec ≤ r ∧ next ≤ r := by
  intro fuel
  induction fuel with
  | zero => intro next h; omega
  | succ n ih =>
    intro next h
    by_cases hc : tv_sec > next
    · obtain ⟨r, hr, h1, h2⟩ := ih (next + step) (by omega)
      refine ⟨r, ?_, h1, by omega⟩
      simp only [progress_loop, hc, if_true]
      exact hr
    · refine ⟨next, ?_, by omega, le_refl _⟩
      simp only [progress_loop, hc, if_false]

theorem progress_loop_idle (fuel : Nat) (step tv_sec next : Int) (h : ¬ tv_sec > next) :
    progress_loop (fuel + 1) step tv_sec next = some next := by
  simp only [progress_loop, h, if_false]

theorem before_quantize_returns (ts : Timeval) (g : Globals) :
    ∃ gm, before_quantize ts time_interval g = some gm := by
  unfold before_quantize
  obtain ⟨r, hr, -, -⟩ := progress_loop_returns time_interval ts.tv_sec (by decide)
    (progress_fuel ts.tv_sec (first_packet ts time_interval g).next_interval_time_sec)
    (first_packet ts time_interval g).next_interval_time_sec
    (by unfold progress_fuel; omega)
  simp only [hr]
  exact ⟨_, rfl⟩

theorem before_quantize_keeps (ts : Timeval) (ti : Int) (g gm : Globals)
    (h : before_quantize ts ti g = some gm) :
    gm.negtive_iat_count = g.negtive_iat_count ∧
    gm.exceed_max_iat_count = g.exceed_max_iat_count ∧
    gm.quantized_iat_count = g.quantized_iat_count ∧
    gm.current_time_sec = ts.tv_sec ∧ gm.current_time_usec = ts.tv_usec := by
  unfold before_quantize at h
  cases hl : progress_loop
      (progress_fuel ts.tv_sec (first_packet ts ti g).next_interval_time_sec) ti ts.tv_sec
      (first_packet ts ti g).next_interval_time_sec with
  | none => simp [hl] at h
  | some next =>
    simp only [hl, Option.some.injEq] at h
    subst h
    unfold iat_calculation first_packet
    split_ifs <;> simp

theorem quantize_keeps_time (q size : Nat) (g : Globals) :
    (quantize q size g).current_time_sec = g.current_time_sec ∧
    (quantize q size g).current_time_usec = g.current_time_usec ∧
    (quantize q size g).next_interval_time_sec = g.next_interval_time_sec := by
  simp only [quantize]
  split_ifs <;> simp

theorem iat_calculation_next (ts : Timeval) (g : Globals) :
    (iat_calculation ts g).next_interval_time_sec = g.next_interval_time_sec := by
  simp only [iat_calculation]
  split_ifs <;> simp

theorem classified_iat_spec (ts : Timeval) (ti : Int) (g : Globals) (delta : Int)
    (h : classified_iat ts ti g = some delta) :
    ∃ gm, before_quantize ts ti g = some gm ∧ gm.iat_usec = delta := by
  unfold classified_iat at h
  cases hb : before_quantize ts ti g with
  | none => rw [hb] at h; exact absurd h (by simp)
  | some gm =>
    rw [hb] at h
    simp only [Option.map_some', Option.some.injEq] at h
    exact ⟨gm, rfl, h⟩

theorem before_quantize_iat (ts : Timeval) (ti : Int) (g gm : Globals)
    (h : before_quantize ts ti g = some gm) (hguard : gm.next_interval_time_sec ≠ 0) :
    gm.iat_usec
      = (ts.tv_sec - g.current_time_sec) * 1000000 + (ts.tv_usec - g.current_time_usec) := by
  unfold before_quantize at h
  cases hl : progress_loop
      (progress_fuel ts.tv_sec (first_packet ts ti g).next_interval_time_sec) ti ts.tv_sec
      (first_packet ts ti g).next_interval_time_sec with
  | none => simp [hl] at h
  | some next =>
    simp only [hl, Option.some.injEq] at h
    subst h
    have hn : next ≠ 0 := by
      rw [iat_calculation_next] at hguard
      exact hguard
    have e1 : (first_packet ts ti g).current_time_sec = g.current_time_sec := by
      unfold first_packet; split_ifs <;> rfl
    have e2 : (first_packet ts ti g).current_time_usec = g.current_time_usec := by
      unfold first_packet; split_ifs <;> rfl
    simp only [iat_calculation, hn, ne_eq, not_false_eq_true, if_true, e1, e2]
    ring

/-! ## Classification of one sample -/

/-- The bucketed branch of lines 474-479, on the value that the call
classifies: in a call of `per_packet` whose classified value `delta` (the
`iat_usec` of line 470) is not negative and whose index `delta >>
quantize_time_order` is below `iat_count_size`, the call returns, the cell
at that index goes up by one (as a `uint64_t`, so by exactly one unless it
held `2^64 - 1`), every other cell is as before, and `negtive_iat_count` and
`exceed_max_iat_count` are as before. -/
theorem per_packet_bucketed (ts : Timeval) (quantize_time_order iat_count_size : Nat)
    (g : Globals) (delta : Int)
    (hdelta : classified_iat ts time_interval g = some delta)
    (hnonneg : 0 ≤ delta)
    (hindex : (delta >>> quantize_time_order).toNat < iat_count_size) :
    ∃ g', per_packet ts time_interval quantize_time_order iat_count_size g = some g' ∧
      g'.quantized_iat_count (delta >>> quantize_time_order).toNat
        = u64_incr (g.quantized_iat_count (delta >>> quantize_time_order).toNat) ∧
      (g.quantized_iat_count (delta >>> quantize_time_order).toNat + 1 < UINT64_MOD →
        g'.quantized_iat_count (delta >>> quantize_time_order).toNat
          = g.quantized_iat_count (delta >>> quantize_time_order).toNat + 1) ∧
      (∀ j, j ≠ (delta >>> quantize_time_order).toNat →
        g'.quantized_iat_count j = g.quantized_iat_count j) ∧
      g'.negtive_iat_count = g.negtive_iat_count ∧
      g'.exceed_max_iat_count = g.exceed_max_iat_count := by
  obtain ⟨gm, hgm, hd⟩ := classified_iat_spec ts time_interval g delta hdelta
  obtain ⟨kn, ke, kq, -, -⟩ := before_quantize_keeps ts time_interval g gm hgm
  subst hd
  refine ⟨quantize quantize_time_order iat_count_size gm, ?_, ?_⟩
  · simp [per_packet, hgm]
  · have h1 : ¬ gm.iat_usec < 0 := by omega
    have h2 : ¬ (gm.iat_usec >>> quantize_time_order).toNat > iat_count_size := by omega
    simp only [quantize, h1, h2, if_false, Function.update_same, kq, kn, ke, true_and, and_true]
    refine ⟨?_, ?_⟩
    · intro hlt
      unfold u64_incr
      exact Nat.mod_eq_of_lt hlt
    · intro j hj
      exact Function.update_noteq hj _ _

/-- The negative branch of lines 470-473, on the value that the call
classifies: in a call of `per_packet` whose classified value `delta` (the
`iat_usec` of line 470) is negative, the call returns, `negtive_iat_count`
goes up by one (as a `uint64_t`, so by exactly one unless it held
`2^64 - 1`), no cell of `quantized_iat_count` changes and
`exceed_max_iat_count` is as before. -/
theorem per_packet_negative (ts : Timeval) (quantize_time_order iat_count_size : Nat)
    (g : Globals) (delta : Int)
    (hdelta : classified_iat ts time_interval g = some delta)
    (hneg : delta < 0) :
    ∃ g', per_packet ts time_interval quantize_time_order iat_count_size g = some g' ∧
      g'.negtive_iat_count = u64_incr g.negtive_iat_count ∧
      (g.negtive_iat_count + 1 < UINT64_MOD →
        g'.negtive_iat_count = g.negtive_iat_count + 1) ∧
      g'.quantized_iat_count = g.quantized_iat_count ∧
      g'.exceed_max_iat_count = g.exceed_max_iat_count := by
  obtain ⟨gm, hgm, hd⟩ := classified_iat_spec ts time_interval g delta hdelta
  obtain ⟨kn, ke, kq, -, -⟩ := before_quantize_keeps ts time_interval g gm hgm
  subst hd
  refine ⟨quantize quantize_time_order iat_count_size gm, ?_, ?_⟩
  · simp [per_packet, hgm]
  · simp only [quantize, hneg, if_true, kq, kn, ke, true_and, and_true]
    intro hlt
    unfold u64_incr
    exact Nat.mod_eq_of_lt hlt

theorem per_packet_bucketed_witness :
    classified_iat ⟨0, 1005⟩ time_interval seeded_globals = some 5 ∧
    (0 : Int) ≤ 5 ∧ ((5 : Int) >>> 4).toNat < 3 ∧
    ∃ g', per_packet ⟨0, 1005⟩ time_interval 4 3 seeded_globals = some g' ∧
      g'.quantized_iat_count ((5 : Int) >>> 4).toNat
        = u64_incr (seeded_globals.quantized_iat_count ((5 : Int) >>> 4).toNat) ∧
      (seeded_globals.quantized_iat_count ((5 : Int) >>> 4).toNat + 1 < UINT64_MOD →
        g'.quantized_iat_count ((5 : Int) >>> 4).toNat
          = seeded_globals.quantized_iat_count ((5 : Int) >>> 4).toNat + 1) ∧
      (∀ j, j ≠ ((5 : Int) >>> 4).toNat →
        g'.quantized_iat_count j = seeded_globals.quantized_iat_count j) ∧
      g'.negtive_iat_count = seeded_globals.negtive_iat_count ∧
      g'.exceed_max_iat_count = seeded_globals.exceed_max_iat_count :=
  ⟨by decide, by decide, by decide,
    per_packet_bucketed ⟨0, 1005⟩ 4 3 seeded_globals 5 (by decide) (by decide) (by decide)⟩

theorem per_packet_negative_witness :
    classified_iat ⟨0, 900⟩ time_interval seeded_globals = some (-100) ∧
    (-100 : Int) < 0 ∧
    ∃ g', per_packet ⟨0, 900⟩ time_interval 4 3 seeded_globals = some g' ∧
      g'.negtive_iat_count = u64_incr seeded_globals.negtive_iat_count ∧
      (seeded_globals.negtive_iat_count + 1 < UINT64_MOD →
        g'.negtive_iat_count = seeded_globals.negtive_iat_count + 1) ∧
      g'.quantized_iat_count = seeded_globals.quantized_iat_count ∧
      g'.exceed_max_iat_count = seeded_globals.exceed_max_iat_count :=
  ⟨by decide, by decide,
    per_packet_negative ⟨0, 900⟩ 4 3 seeded_globals (-100) (by decide) (by decide)⟩

/-- C2 (the code departs from the claim): with `quantize_time_order = 4` and
`iat_count_size = 3`, after a packet at 0 s 1000 us the packet at
0 s 1048 us has `iat_usec = 48` and index `48 >> 4 = 3 = iat_count_size`;
the test `3 > 3` of line 475 fails, so `exceed_max_iat_count` stays at `1`
and the cell at index `3`, one past the three reserved, goes from `0` to
`1`. -/
theorem per_packet_index_eq_size :
    (read_packets 4 3 [⟨0, 1000⟩] (initial_globals zero_mem)).bind
      (fun g1 => (per_packet ⟨0, 1048⟩ time_interval 4 3 g1).map
        (fun g2 => (g2.iat_usec, g2.quantized_iat, g1.exceed_max_iat_count,
          g2.exceed_max_iat_count, g1.quantized_iat_count 3, g2.quantized_iat_count 3)))
      = some (48, 3, 1, 1, 0, 1) := by
  decide

/-- C3 (the code departs from the claim): with `quantize_time_order = 1` and
`iat_count_size = 1` (one reserved cell, index `0`), the trace
5 s 0 us, 5 s 2 us ends with the cell at index `1` raised from `0` to `1`:
the second packet has index `2 >> 1 = 1`, and `1 > 1` is false. -/
theorem write_past_the_end :
    (read_packets 1 1 [⟨5, 0⟩, ⟨5, 2⟩] (initial_globals zero_mem)).map
      (fun g => (g.quantized_iat, g.quantized_iat_count 0, g.quantized_iat_count 1))
      = some (1, 0, 1) := by
  decide

/-- The bound that does hold: a cell that a call of `per_packet` changes has
an index of at most `iat_count_size`. -/
theorem changed_cell_le_size (ts : Timeval) (ti : Int)
    (quantize_time_order iat_count_size : Nat) (g g' : Globals)
    (h : per_packet ts ti quantize_time_order iat_count_size g = some g')
    (j : Nat) (hj : g'.quantized_iat_count j ≠ g.quantized_iat_count j) :
    j ≤ iat_count_size := by
  unfold per_packet at h
  cases hb : before_quantize ts ti g with
  | none => simp [hb] at h
  | some gm =>
    obtain ⟨-, -, kq, -, -⟩ := before_quantize_keeps ts ti g gm hb
    simp only [hb, Option.map_some', Option.some.injEq] at h
    subst h
    rw [← kq] at hj
    by_contra hgt
    apply hj
    simp only [quantize]
    split_ifs with h1 h2
    · rfl
    · rfl
    · exact Function.update_noteq (by omega) _ _

/-! ## The first sample -/

theorem shiftRight_toNat_of_neg (d : Int) (q : Nat) (h : d < 0) : (d >>> q).toNat = 0 := by
  have hlt : d >>> q < 0 := by
    rw [Int.shiftRight_eq_div_pow]
    exact Int.ediv_neg' h (by positivity)
  omega

/-- C5 as stated fails: on fresh globals with zeroed memory, the first call
of `per_packet`, for a packet stamped 1700000000 s 0 us with
`quantize_time_order = 4` and `iat_count_size = 20`, returns with
`exceed_max_iat_count = 1`, not `0`. -/
theorem first_call_counts_overflow :
    (per_packet ⟨1700000000, 0⟩ time_interval 4 20 (initial_globals zero_mem)).map
      (fun g => g.exceed_max_iat_count) = some 1 ∧
    (per_packet ⟨1700000000, 0⟩ time_interval 4 20 (initial_globals zero_mem)).map
      (fun g => g.exceed_max_iat_count) ≠ some 0 := by
  decide

theorem first_call_overflow (ts : Timeval)
    (quantize_time_order iat_count_size : Nat) (mem : Nat → Nat)
    (hseed : ts.tv_sec + time_interval ≠ 0)
    (hindex : iat_count_size
      < ((ts.tv_usec + ts.tv_sec * 1000000) >>> quantize_time_order).toNat) :
    ∃ g', per_packet ts time_interval quantize_time_order iat_count_size
        (initial_globals mem) = some g' ∧
      g'.exceed_max_iat_count = 1 ∧
      g'.negtive_iat_count = 0 ∧
      g'.quantized_iat_count = mem ∧
      g'.current_time_sec = ts.tv_sec ∧ g'.current_time_usec = ts.tv_usec := by
  have hnn : ¬ (ts.tv_usec + ts.tv_sec * 1000000 < 0) := by
    intro hlt
    rw [shiftRight_toNat_of_neg _ _ hlt] at hindex
    omega
  have hidle : ¬ ts.tv_sec > ts.tv_sec + time_interval := by
    unfold time_interval; omega
  have hb : before_quantize ts time_interval (initial_globals mem)
      = some (iat_calculation ts
          { first_packet ts time_interval (initial_globals mem) with
            next_interval_time_sec := ts.tv_sec + time_interval }) := by
    unfold before_quantize
    have hf : (first_packet ts time_interval (initial_globals mem)).next_interval_time_sec
        = ts.tv_sec + time_interval := by
      simp [first_packet, initial_globals]
    simp only [hf, progress_fuel, progress_loop_idle _ _ _ _ hidle]
  refine ⟨_, by rw [per_packet, hb]; rfl, ?_⟩
  simp only [quantize, iat_calculation, first_packet, initial_globals, if_true, hseed,
    ne_eq, not_false_eq_true, sub_zero, hnn, if_false, gt_iff_lt, hindex]
  simp [u64_incr, UINT64_MOD]

/-- C5 amended: the first call of `per_packet` on fresh globals classifies
the first timestamp against the zero previous timestamp.  When the seeded
`next_interval_time_sec` is not `0` and the index
`(tv_sec * 10^6 + tv_usec) >> quantize_time_order` is above
`iat_count_size`, the call returns with `exceed_max_iat_count = 1`, with
`negtive_iat_count = 0`, with every cell of `quantized_iat_count` as it was,
and with the timestamp stored as the previous one. -/
theorem first_call_seeds_and_overflows (ts : Timeval)
    (quantize_time_order iat_count_size : Nat) (mem : Nat → Nat)
    (hseed : ts.tv_sec + time_interval ≠ 0)
    (hindex : iat_count_size
      < ((ts.tv_usec + ts.tv_sec * 1000000) >>> quantize_time_order).toNat) :
    ∃ g', per_packet ts time_interval quantize_time_order iat_count_size
        (initial_globals mem) = some g' ∧
      g'.exceed_max_iat_count = 1 ∧
      g'.negtive_iat_count = 0 ∧
      g'.quantized_iat_count = mem ∧
      g'.current_time_sec = ts.tv_sec ∧ g'.current_time_usec = ts.tv_usec :=
  first_call_overflow ts quantize_time_order iat_count_size mem hseed hindex

theorem first_call_seeds_and_overflows_witness :
    (1700000000 : Int) + time_interval ≠ 0 ∧
    20 < (((0 : Int) + 1700000000 * 1000000) >>> 4).toNat ∧
    ∃ g', per_packet ⟨1700000000, 0⟩ time_interval 4 20 (initial_globals zero_mem) = some g' ∧
      g'.exceed_max_iat_count = 1 ∧
      g'.negtive_iat_count = 0 ∧
      g'.quantized_iat_count = zero_mem ∧
      g'.current_time_sec = 1700000000 ∧ g'.current_time_usec = 0 :=
  ⟨by decide, by decide,
    first_call_seeds_and_overflows ⟨1700000000, 0⟩ 4 20 zero_mem (by decide) (by decide)⟩

/-! ## The delta that is classified -/

/-- C6 (the code departs from the claim): from fresh globals, after a first
packet stamped -10 s 0 us the seeded `next_interval_time_sec` is `-10 + 10 = 0`, so the
guard of line 458 is false in the second call too; for a second packet
stamped -10 s 100 us the value classified is the `iat_usec = 0` left from
program start, not `(-10 - -10) * 10^6 + (100 - 0) = 100`. -/
theorem stale_iat_when_guard_fails :
    (per_packet ⟨-10, 0⟩ time_interval 4 3 (initial_globals zero_mem)).bind
      (classified_iat ⟨-10, 100⟩ time_interval) = some 0 ∧
    ((-10 : Int) - (-10)) * 1000000 + ((100 : Int) - 0) = 100 ∧
    (per_packet ⟨-10, 0⟩ time_interval 4 3 (initial_globals zero_mem)).bind
      (classified_iat ⟨-10, 100⟩ time_interval)
      ≠ some (((-10 : Int) - (-10)) * 1000000 + ((100 : Int) - 0)) := by
  decide

/-- What holds while the guard does: for two consecutive calls of
`per_packet`, on timestamps `t1` then `t2` from any globals, the first call stores `t1` as the current
time whatever branch it returns from, and if the guard
`next_interval_time_sec != 0` of line 458 holds in the second call, the
value the second call classifies is
`(t2.tv_sec - t1.tv_sec) * 10^6 + (t2.tv_usec - t1.tv_usec)`. -/
theorem iat_delta_under_guard (t1 t2 : Timeval)
    (quantize_time_order iat_count_size : Nat) (g g1 gm : Globals)
    (hfirst : per_packet t1 time_interval quantize_time_order iat_count_size g = some g1)
    (hsecond : before_quantize t2 time_interval g1 = some gm)
    (hguard : gm.next_interval_time_sec ≠ 0) :
    g1.current_time_sec = t1.tv_sec ∧ g1.current_time_usec = t1.tv_usec ∧
    classified_iat t2 time_interval g1
      = some ((t2.tv_sec - t1.tv_sec) * 1000000 + (t2.tv_usec - t1.tv_usec)) := by
  have hcur : g1.current_time_sec = t1.tv_sec ∧ g1.current_time_usec = t1.tv_usec := by
    unfold per_packet at hfirst
    cases hb : before_quantize t1 time_interval g with
    | none => simp [hb] at hfirst
    | some gb =>
      obtain ⟨-, -, -, c1, c2⟩ := before_quantize_keeps t1 time_interval g gb hb
      simp only [hb, Option.map_some', Option.some.injEq] at hfirst
      subst hfirst
      obtain ⟨q1, q2, -⟩ := quantize_keeps_time quantize_time_order iat_count_size gb
      exact ⟨q1.trans c1, q2.trans c2⟩
  refine ⟨hcur.1, hcur.2, ?_⟩
  have hiat := before_quantize_iat t2 time_interval g1 gm hsecond hguard
  rw [hcur.1, hcur.2] at hiat
  simp only [classified_iat, hsecond, Option.map_some', hiat]

theorem iat_delta_under_guard_witness :
    per_packet ⟨0, 900⟩ time_interval 4 3 seeded_globals = some after_negative ∧
    before_quantize ⟨0, 950⟩ time_interval after_negative = some after_negative_next ∧
    after_negative_next.next_interval_time_sec ≠ 0 ∧
    after_negative.current_time_sec = 0 ∧ after_negative.current_time_usec = 900 ∧
    classified_iat ⟨0, 950⟩ time_interval after_negative
      = some (((0 : Int) - 0) * 1000000 + ((950 : Int) - 900)) :=
  ⟨rfl, rfl, by decide,
    iat_delta_under_guard ⟨0, 900⟩ ⟨0, 950⟩ 4 3 seeded_globals after_negative
      after_negative_next rfl rfl (by decide)⟩

/-- The guard of line 458 holds in every call that starts with a positive
`next_interval_time_sec`, and in a call on fresh globals whose timestamp
has `tv_sec > -10`. -/
theorem guard_holds (ts : Timeval) (g gm : Globals)
    (h : before_quantize ts time_interval g = some gm)
    (hpos : 0 < g.next_interval_time_sec ∨
      (g.next_interval_time_sec = 0 ∧ -10 < ts.tv_sec)) :
    0 < gm.next_interval_time_sec := by
  have hf : 0 < (first_packet ts time_interval g).next_interval_time_sec := by
    unfold first_packet time_interval
    rcases hpos with hp | ⟨hz, hs⟩
    · rw [if_neg (by omega)]; exact hp
    · rw [if_pos hz]; simp only; omega
  obtain ⟨r, hr, -, hle⟩ := progress_loop_returns time_interval ts.tv_sec (by decide)
    (progress_fuel ts.tv_sec (first_packet ts time_interval g).next_interval_time_sec)
    (first_packet ts time_interval g).next_interval_time_sec
    (by unfold progress_fuel; omega)
  unfold before_quantize at h
  simp only [hr, Option.some.injEq] at h
  subst h
  rw [iat_calculation_next]
  simp only
  omega

/-! ## Whole traces -/

/-- C7: with `quantize_time_order = 4`, `iat_count_size = 3`, zeroed memory
and the trace 1000, 1005, 1025, 1100 us (seconds field 0), the packet loop
of `main` followed by `exceed_max_iat_count--` returns with the cells
`[1, 1, 0]`, `exceed_max_iat_count = 1` and `negtive_iat_count = 0`. -/
theorem worked_example_iat :
    (process_trace 4 3 [⟨0, 1000⟩, ⟨0, 1005⟩, ⟨0, 1025⟩, ⟨0, 1100⟩]
        (initial_globals zero_mem)).map
      (fun g => (buckets 3 g, g.exceed_max_iat_count, g.negtive_iat_count))
      = some ([1, 1, 0], 1, 0) := by
  decide

/-- C8 (the code departs from the claim): with `quantize_time_order = 4`,
`iat_count_size = 20`, zeroed memory and the one-packet trace 0 s 100 us,
the first call classifies `iat_usec = 100` into the cell at index
`100 >> 4 = 6`, and `exceed_max_iat_count--` then takes the counter from
`0` to `2^64 - 1`; the quantizer that does not classify its first sample
ends with cell `6`, the negative count and the overflow count at `0`. -/
theorem compensation_without_overflow :
    (process_trace 4 20 [⟨0, 100⟩] (initial_globals zero_mem)).map
      (fun g => (g.quantized_iat_count 6, g.negtive_iat_count, g.exceed_max_iat_count))
      = some (1, 0, 18446744073709551615) ∧
    ((InitialQuantizer.observe_all 4 20 [⟨0, 100⟩]
        (InitialQuantizer.fresh_state zero_mem)).buckets 6,
      (InitialQuantizer.observe_all 4 20 [⟨0, 100⟩]
        (InitialQuantizer.fresh_state zero_mem)).negative_count,
      (InitialQuantizer.observe_all 4 20 [⟨0, 100⟩]
        (InitialQuantizer.fresh_state zero_mem)).overflow_count) = (0, 0, 0) := by
  decide

theorem u64_decr_incr (x : Nat) (h : x < UINT64_MOD) : u64_decr (u64_incr x) = x := by
  unfold u64_decr u64_incr UINT64_MOD at *
  omega

theorem u64_incr_lt (x : Nat) : u64_incr x < UINT64_MOD := by
  unfold u64_incr
  exact Nat.mod_lt _ (by decide)

theorem per_packet_matches (quantize_time_order iat_count_size : Nat) (ts : Timeval)
    (g : Globals) (s : InitialQuantizer.IATHistogramState)
    (hm : InitialQuantizer.Matches g s) :
    ∃ g', per_packet ts time_interval quantize_time_order iat_count_size g = some g' ∧
      InitialQuantizer.Matches g'
        (InitialQuantizer.observe quantize_time_order iat_count_size ts s) := by
  obtain ⟨hq, hn, he, hlt, hp, hpos⟩ := hm
  obtain ⟨gm, hgm⟩ := before_quantize_returns ts g
  have hnext := guard_holds ts g gm hgm (Or.inl hpos)
  have hiat := before_quantize_iat ts time_interval g gm hgm (by omega)
  obtain ⟨kn, ke, kq, c1, c2⟩ := before_quantize_keeps ts time_interval g gm hgm
  refine ⟨quantize quantize_time_order iat_count_size gm, by simp [per_packet, hgm], ?_⟩
  unfold InitialQuantizer.Matches InitialQuantizer.observe
  rw [hp]
  simp only [← hiat, quantize]
  by_cases h1 : gm.iat_usec < 0
  · simp only [h1, if_true]
    exact ⟨kq.trans hq, by rw [kn, hn], ke.trans he, hlt, by rw [c1, c2], hnext⟩
  · by_cases h2 : (gm.iat_usec >>> quantize_time_order).toNat > iat_count_size
    · simp only [h1, h2, if_true, if_false]
      exact ⟨kq.trans hq, kn.trans hn, by rw [ke, he], u64_incr_lt _, by rw [c1, c2], hnext⟩
    · simp only [h1, h2, if_false]
      exact ⟨by rw [kq, hq], kn.trans hn, ke.trans he, hlt, by rw [c1, c2], hnext⟩

theorem read_packets_matches (quantize_time_order iat_count_size : Nat) :
    ∀ (trace : List Timeval) (g : Globals) (s : InitialQuantizer.IATHistogramState),
      InitialQuantizer.Matches g s →
      ∃ g', read_packets quantize_time_order iat_count_size trace g = some g' ∧
        InitialQuantizer.Matches g'
          (InitialQuantizer.observe_all quantize_time_order iat_count_size trace s) := by
  intro trace
  induction trace with
  | nil => intro g s hm; exact ⟨g, rfl, hm⟩
  | cons ts rest ih =>
    intro g s hm
    obtain ⟨g1, h1, hm1⟩ := per_packet_matches quantize_time_order iat_count_size ts g s hm
    obtain ⟨g2, h2, hm2⟩ := ih g1 _ hm1
    exact ⟨g2, by simp only [read_packets, h1, Option.some_bind, h2], hm2⟩

/-- The compensation of `main` agrees with the explicit design on every
trace whose first packet is counted as an overflow: if the first timestamp
has `tv_sec > -10` and its index
`(tv_sec * 10^6 + tv_usec) >> quantize_time_order` is above `iat_count_size`,
the packet loop followed by `exceed_max_iat_count--` returns with the cells,
the negative count and the overflow count of the quantizer that does not
classify its first sample. -/
theorem compensation_agrees_after_overflow (quantize_time_order iat_count_size : Nat)
    (mem : Nat → Nat) (first : Timeval) (rest : List Timeval)
    (hseed : -10 < first.tv_sec)
    (hindex : iat_count_size
      < ((first.tv_usec + first.tv_sec * 1000000) >>> quantize_time_order).toNat) :
    ∃ g, process_trace quantize_time_order iat_count_size (first :: rest)
        (initial_globals mem) = some g ∧
      g.quantized_iat_count
        = (InitialQuantizer.observe_all quantize_time_order iat_count_size (first :: rest)
            (InitialQuantizer.fresh_state mem)).buckets ∧
      g.negtive_iat_count
        = (InitialQuantizer.observe_all quantize_time_order iat_count_size (first :: rest)
            (InitialQuantizer.fresh_state mem)).negative_count ∧
      g.exceed_max_iat_count
        = (InitialQuantizer.observe_all quantize_time_order iat_count_size (first :: rest)
            (InitialQuantizer.fresh_state mem)).overflow_count := by
  obtain ⟨g1, hg1, hex, hneg, hmem, hc1, hc2⟩ :=
    first_call_overflow first quantize_time_order iat_count_size mem
      (by unfold time_interval; omega) hindex
  have hnext : 0 < g1.next_interval_time_sec := by
    obtain ⟨gm, hgm⟩ := before_quantize_returns first (initial_globals mem)
    have hpos := guard_holds first (initial_globals mem) gm hgm
      (Or.inr ⟨rfl, hseed⟩)
    simp only [per_packet, hgm, Option.map_some', Option.some.injEq] at hg1
    subst hg1
    rw [(quantize_keeps_time _ _ gm).2.2]
    exact hpos
  have hm : InitialQuantizer.Matches g1
      (InitialQuantizer.observe quantize_time_order iat_count_size first
        (InitialQuantizer.fresh_state mem)) := by
    refine ⟨hmem, hneg, ?_, ?_, ?_, hnext⟩
    · rw [hex]
      simp only [InitialQuantizer.observe, InitialQuantizer.fresh_state]
      decide
    · simp only [InitialQuantizer.observe, InitialQuantizer.fresh_state]
      decide
    · simp only [InitialQuantizer.observe, InitialQuantizer.fresh_state, hc1, hc2]
  obtain ⟨g2, hg2, hq, hn, he, hlt, -, -⟩ :=
    read_packets_matches quantize_time_order iat_count_size rest g1 _ hm
  refine ⟨{ g2 with exceed_max_iat_count := u64_decr g2.exceed_max_iat_count }, ?_, hq, hn, ?_⟩
  · simp only [process_trace, read_packets, hg1, Option.some_bind, hg2, Option.map_some']
  · simp only [he]
    exact u64_decr_incr _ hlt

end PtQuantizeIat

namespace PtCountPacket

/-! ## The window loop returns -/

theorem total_nsec_advance (w f : Int) (g : Globals) :
    total_nsec (advance w f g).next_interval_time_sec (advance w f g).next_interval_time_nsec
      = total_nsec g.next_interval_time_sec g.next_interval_time_nsec
        + (w * 1000000000 + f) := by
  simp only [advance, total_nsec]
  split_ifs <;> simp only <;> omega

theorem advance_packet_count (w f : Int) (g : Globals) : (advance w f g).packet_count = 0 := by
  simp only [advance]
  split_ifs <;> rfl

theorem interval_loop_returns (ts : Timespec) (w f : Int) (hlen : 0 < w * 1000000000 + f) :
    ∀ (fuel : Nat) (g : Globals),
      (total_nsec ts.tv_sec ts.tv_nsec
        - total_nsec g.next_interval_time_sec g.next_interval_time_nsec).toNat < fuel →
      ∃ g' out, interval_loop fuel ts w f g = some (g', out) ∧
        ((ts.tv_sec > g.next_interval_time_sec ∧ ts.tv_nsec > g.next_interval_time_nsec) →
          g'.packet_count = 0 ∧
          ∃ rest, out = ⟨g.next_interval_time_sec, g.next_interval_time_nsec,
            g.packet_count⟩ :: rest) ∧
        (¬ (ts.tv_sec > g.next_interval_time_sec ∧ ts.tv_nsec > g.next_interval_time_nsec) →
          g' = g ∧ out = []) := by
  intro fuel
  induction fuel with
  | zero => intro g h; omega
  | succ n ih =>
    intro g h
    by_cases hc : ts.tv_sec > g.next_interval_time_sec ∧ ts.tv_nsec > g.next_interval_time_nsec
    · have hadv := total_nsec_advance w f g
      have hfuel : (total_nsec ts.tv_sec ts.tv_nsec
          - total_nsec (advance w f g).next_interval_time_sec
              (advance w f g).next_interval_time_nsec).toNat < n := by
        rw [hadv]
        simp only [total_nsec] at h ⊢
        omega
      obtain ⟨g', out, hrun, hyes, hno⟩ := ih (advance w f g) hfuel
      refine ⟨g', ⟨g.next_interval_time_sec, g.next_interval_time_nsec, g.packet_count⟩ :: out,
        ?_, ?_, fun hn => absurd hc hn⟩
      · simp only [interval_loop, hc, and_self, if_true, hrun, Option.map_some']
      · intro _
        refine ⟨?_, out, rfl⟩
        by_cases hc2 : ts.tv_sec > (advance w f g).next_interval_time_sec ∧
            ts.tv_nsec > (advance w f g).next_interval_time_nsec
        · exact (hyes hc2).1
        · rw [(hno hc2).1]
          exact advance_packet_count w f g
    · refine ⟨g, [], ?_, fun hy => absurd hy hc, fun _ => ⟨rfl, rfl⟩⟩
      simp only [interval_loop, hc, if_false]

/-! ## The first call -/

/-- What the first call does for every timestamp and every window with
`interval_sec ≥ 0`: it prints nothing, counts the packet, and stores the
plain field-wise sum as the boundary. -/
theorem first_call_seeds_boundary (ts : Timespec) (interval_sec interval_nsec : Int)
    (hsec : 0 ≤ interval_sec) :
    per_packet ts interval_sec interval_nsec initial_globals
      = some (⟨1, ts.tv_sec + interval_sec, ts.tv_nsec + interval_nsec⟩, []) := by
  have hc : ¬ (ts.tv_sec > ts.tv_sec + interval_sec ∧
      ts.tv_nsec > ts.tv_nsec + interval_nsec) := by omega
  simp only [per_packet, first_packet, initial_globals, if_true, interval_fuel,
    interval_loop, hc, if_false]
  rfl

/-- C9 (the code departs from the claim): with a window of 0.5 s
(`interval_sec = 0`, `interval_nsec = 500000000`) the first call, for a
packet stamped 100 s 600000000 ns, prints nothing and leaves
`next_interval_time_sec = 100` and `next_interval_time_nsec = 1100000000`:
the sum is the right instant but the first-packet branch (lines 287-291) has
no carry, so the nanosecond field is not below `10^9`. -/
theorem first_boundary_without_carry :
    per_packet ⟨100, 600000000⟩ 0 500000000 initial_globals
      = some (⟨1, 100, 1100000000⟩, []) ∧
    ¬ ((1100000000 : Int) < 1000000000) := by
  decide

/-! ## Order of counting and printing -/

/-- C10 as stated fails: with a window of 10 s the first call, for a packet
stamped 0 s 0 ns, leaves `packet_count = 1` and the boundary at 10 s; the
next call, for a packet stamped 22 s 5 ns, prints the windows ending at
10 s with count `1` (the count before the call, not `1 + 1`) and at 20 s
with count `0`, and returns with `packet_count = 1`, not `0`. -/
theorem crossing_packet_counted_after :
    per_packet ⟨0, 0⟩ 10 0 initial_globals = some (⟨1, 10, 0⟩, []) ∧
    per_packet ⟨22, 5⟩ 10 0 ⟨1, 10, 0⟩
      = some (⟨1, 30, 0⟩, [⟨10, 0, 1⟩, ⟨20, 0, 0⟩]) ∧
    (⟨10, 0, 1⟩ : Record).count ≠ (⟨1, 10, 0⟩ : Globals).packet_count + 1 ∧
    (⟨1, 30, 0⟩ : Globals).packet_count ≠ 0 := by
  decide

/-- C10 amended: for a window of at least one nanosecond, a call of
`per_packet` that finds the boundary already seeded and the timestamp past
it (`tv_sec` above the boundary seconds and `tv_nsec` above the boundary
nanoseconds) returns; the first line it prints carries the boundary and the
count held before the call, the packet of the call being counted after the
loop, so that `packet_count` is `1` when the call returns. -/
theorem crossing_prints_prior_count (ts : Timespec) (interval_sec interval_nsec : Int)
    (g : Globals)
    (hlen : 0 < interval_sec * 1000000000 + interval_nsec)
    (hseeded : g.next_interval_time_sec ≠ 0)
    (hcross : ts.tv_sec > g.next_interval_time_sec ∧ ts.tv_nsec > g.next_interval_time_nsec) :
    ∃ g' rest, per_packet ts interval_sec interval_nsec g
        = some (g', ⟨g.next_interval_time_sec, g.next_interval_time_nsec, g.packet_count⟩
            :: rest) ∧
      g'.packet_count = 1 := by
  have hfp : first_packet ts interval_sec interval_nsec g = g := by
    simp only [first_packet, hseeded, if_false]
  obtain ⟨g2, out, hrun, hyes, -⟩ := interval_loop_returns ts interval_sec interval_nsec hlen
    (interval_fuel ts g) g (by unfold interval_fuel; omega)
  obtain ⟨hzero, rest, hout⟩ := hyes hcross
  refine ⟨{ g2 with packet_count := u64_incr g2.packet_count }, rest, ?_, ?_⟩
  · simp only [per_packet, hfp, hrun, hout]
  · simp only [hzero]
    decide

theorem crossing_prints_prior_count_witness :
    (0 : Int) < 10 * 1000000000 + 0 ∧
    (⟨1, 10, 0⟩ : Globals).next_interval_time_sec ≠ 0 ∧
    ((⟨22, 5⟩ : Timespec).tv_sec > (⟨1, 10, 0⟩ : Globals).next_interval_time_sec ∧
      (⟨22, 5⟩ : Timespec).tv_nsec > (⟨1, 10, 0⟩ : Globals).next_interval_time_nsec) ∧
    ∃ g' rest, per_packet ⟨22, 5⟩ 10 0 ⟨1, 10, 0⟩
        = some (g', ⟨(⟨1, 10, 0⟩ : Globals).next_interval_time_sec,
            (⟨1, 10, 0⟩ : Globals).next_interval_time_nsec,
            (⟨1, 10, 0⟩ : Globals).packet_count⟩ :: rest) ∧
      g'.packet_count = 1 :=
  ⟨by decide, by decide, by decide,
    crossing_prints_prior_count ⟨22, 5⟩ 10 0 ⟨1, 10, 0⟩ (by decide) (by decide) (by decide)⟩

end PtCountPacket

namespace PtCountPacket

/-! ## One turn of the window loop -/

theorem interval_loop_cross (fuel : Nat) (ts : Timespec) (w f : Int) (g g' : Globals)
    (out : List Record)
    (hc : ts.tv_sec > g.next_interval_time_sec ∧ ts.tv_nsec > g.next_interval_time_nsec)
    (h : interval_loop (fuel + 1) ts w f g = some (g', out)) :
    ∃ rest, interval_loop fuel ts w f (advance w f g) = some (g', rest) ∧
      out = ⟨g.next_interval_time_sec, g.next_interval_time_nsec, g.packet_count⟩ :: rest := by
  simp only [interval_loop, hc, and_self, if_true] at h
  cases hl : interval_loop fuel ts w f (advance w f g) with
  | none => simp [hl] at h
  | some r =>
    simp only [hl, Option.map_some', Option.some.injEq, Prod.mk.injEq] at h
    exact ⟨r.2, by rw [← h.1], h.2.symm⟩

theorem interval_loop_stay (fuel : Nat) (ts : Timespec) (w f : Int) (g g' : Globals)
    (out : List Record)
    (hc : ¬ (ts.tv_sec > g.next_interval_time_sec ∧ ts.tv_nsec > g.next_interval_time_nsec))
    (h : interval_loop (fuel + 1) ts w f g = some (g', out)) :
    g' = g ∧ out = [] := by
  simp only [interval_loop, hc, if_false, Option.some.injEq, Prod.mk.injEq] at h
  exact ⟨h.1.symm, h.2.symm⟩

theorem interval_loop_zero (ts : Timespec) (w f : Int) (g : Globals) :
    interval_loop 0 ts w f g = none := rfl

/-! ## The boundary-crossing test -/

/-- C14: for a window of at least one nanosecond, a call of `per_packet`
returns, and it prints at least one line exactly when, at entry to the
loop (after the first-packet branch), `ts.tv_sec > next_interval_time_sec`
and `ts.tv_nsec > next_interval_time_nsec` both hold; when they do not both
hold, and so for a timestamp with `tv_sec` above the boundary seconds but
`tv_nsec` at most the boundary nanoseconds, nothing is printed and the
boundary is as it was at entry to the loop. -/
theorem prints_iff_both_fields_greater (ts : Timespec) (interval_sec interval_nsec : Int)
    (g : Globals) (hlen : 0 < interval_sec * 1000000000 + interval_nsec) :
    ∃ g' out, per_packet ts interval_sec interval_nsec g = some (g', out) ∧
      (out ≠ [] ↔
        (ts.tv_sec > (first_packet ts interval_sec interval_nsec g).next_interval_time_sec ∧
          ts.tv_nsec
            > (first_packet ts interval_sec interval_nsec g).next_interval_time_nsec)) ∧
      ((ts.tv_sec > (first_packet ts interval_sec interval_nsec g).next_interval_time_sec ∧
          ts.tv_nsec
            ≤ (first_packet ts interval_sec interval_nsec g).next_interval_time_nsec) →
        out = [] ∧
        g'.next_interval_time_sec
          = (first_packet ts interval_sec interval_nsec g).next_interval_time_sec ∧
        g'.next_interval_time_nsec
          = (first_packet ts interval_sec interval_nsec g).next_interval_time_nsec) := by
  obtain ⟨g2, out, hrun, hyes, hno⟩ := interval_loop_returns ts interval_sec interval_nsec hlen
    (interval_fuel ts (first_packet ts interval_sec interval_nsec g))
    (first_packet ts interval_sec interval_nsec g) (by unfold interval_fuel; omega)
  refine ⟨{ g2 with packet_count := u64_incr g2.packet_count }, out, ?_, ?_, ?_⟩
  · simp only [per_packet, hrun]
  · constructor
    · intro hne
      by_contra hc
      exact hne (hno hc).2
    · intro hc
      obtain ⟨-, rest, hout⟩ := hyes hc
      simp [hout]
  · intro hc
    have hnot : ¬ (ts.tv_sec
          > (first_packet ts interval_sec interval_nsec g).next_interval_time_sec ∧
        ts.tv_nsec
          > (first_packet ts interval_sec interval_nsec g).next_interval_time_nsec) := by
      omega
    obtain ⟨hg, hout⟩ := hno hnot
    subst hg
    exact ⟨hout, rfl, rfl⟩

theorem prints_iff_both_fields_greater_witness :
    (0 : Int) < 10 * 1000000000 + 0 ∧
    ∃ g' out, per_packet ⟨22, 0⟩ 10 0 ⟨2, 10, 0⟩ = some (g', out) ∧
      (out ≠ [] ↔
        ((⟨22, 0⟩ : Timespec).tv_sec
            > (first_packet ⟨22, 0⟩ 10 0 ⟨2, 10, 0⟩).next_interval_time_sec ∧
          (⟨22, 0⟩ : Timespec).tv_nsec
            > (first_packet ⟨22, 0⟩ 10 0 ⟨2, 10, 0⟩).next_interval_time_nsec)) ∧
      (((⟨22, 0⟩ : Timespec).tv_sec
            > (first_packet ⟨22, 0⟩ 10 0 ⟨2, 10, 0⟩).next_interval_time_sec ∧
          (⟨22, 0⟩ : Timespec).tv_nsec
            ≤ (first_packet ⟨22, 0⟩ 10 0 ⟨2, 10, 0⟩).next_interval_time_nsec) →
        out = [] ∧
        g'.next_interval_time_sec
          = (first_packet ⟨22, 0⟩ 10 0 ⟨2, 10, 0⟩).next_interval_time_sec ∧
        g'.next_interval_time_nsec
          = (first_packet ⟨22, 0⟩ 10 0 ⟨2, 10, 0⟩).next_interval_time_nsec) :=
  ⟨by decide, prints_iff_both_fields_greater ⟨22, 0⟩ 10 0 ⟨2, 10, 0⟩ (by decide)⟩

/-! ## Windows without packets -/

theorem advance_total (w f : Int) (i : Nat) (g : Globals) :
    total_nsec ((advance w f)^[i] g).next_interval_time_sec
        ((advance w f)^[i] g).next_interval_time_nsec
      = total_nsec g.next_interval_time_sec g.next_interval_time_nsec
        + i * (w * 1000000000 + f) := by
  induction i generalizing g with
  | zero => simp
  | succ n ih =>
    rw [Function.iterate_succ_apply, ih (advance w f g), total_nsec_advance]
    push_cast
    ring

theorem advance_iterate_count (w f : Int) (i : Nat) (g : Globals) :
    ((advance w f)^[i + 1] g).packet_count = 0 := by
  rw [Function.iterate_succ_apply']
  exact advance_packet_count w f _

theorem interval_loop_prefix (ts : Timespec) (w f : Int) :
    ∀ (k fuel : Nat) (g g' : Globals) (out : List Record),
      interval_loop fuel ts w f g = some (g', out) →
      (∀ i, i < k →
        ts.tv_sec > ((advance w f)^[i] g).next_interval_time_sec ∧
        ts.tv_nsec > ((advance w f)^[i] g).next_interval_time_nsec) →
      k ≤ out.length ∧
      ∀ i, i < k → out[i]? = some
        ⟨((advance w f)^[i] g).next_interval_time_sec,
          ((advance w f)^[i] g).next_interval_time_nsec,
          ((advance w f)^[i] g).packet_count⟩ := by
  intro k
  induction k with
  | zero => intro fuel g g' out _ _; exact ⟨Nat.zero_le _, fun i hi => absurd hi (by omega)⟩
  | succ n ih =>
    intro fuel g g' out h hk
    cases fuel with
    | zero => simp [interval_loop_zero] at h
    | succ m =>
      have hc := hk 0 (by omega)
      simp only [Function.iterate_zero, id_eq] at hc
      obtain ⟨rest, hrest, hout⟩ := interval_loop_cross m ts w f g g' out hc h
      obtain ⟨hlen, hget⟩ := ih m (advance w f g) g' rest hrest (by
        intro i hi
        have := hk (i + 1) (by omega)
        rwa [Function.iterate_succ_apply] at this)
      subst hout
      refine ⟨by simp only [List.length_cons]; omega, ?_⟩
      intro i hi
      cases i with
      | zero => simp
      | succ j =>
        rw [List.getElem?_cons_succ, hget j (by omega), Function.iterate_succ_apply]

theorem interval_loop_counts (ts : Timespec) (w f : Int) :
    ∀ (fuel : Nat) (g g' : Globals) (out : List Record),
      interval_loop fuel ts w f g = some (g', out) →
      ∀ r, r ∈ out.tail → r.count = 0 := by
  have all_zero : ∀ (fuel : Nat) (g g' : Globals) (out : List Record),
      interval_loop fuel ts w f g = some (g', out) → g.packet_count = 0 →
      ∀ r, r ∈ out → r.count = 0 := by
    intro fuel
    induction fuel with
    | zero => intro g g' out h; simp [interval_loop_zero] at h
    | succ m ih =>
      intro g g' out h hz r hr
      by_cases hc : ts.tv_sec > g.next_interval_time_sec ∧
          ts.tv_nsec > g.next_interval_time_nsec
      · obtain ⟨rest, hrest, hout⟩ := interval_loop_cross m ts w f g g' out hc h
        subst hout
        rcases List.mem_cons.mp hr with hhead | htail
        · rw [hhead]; exact hz
        · exact ih (advance w f g) g' rest hrest (advance_packet_count w f g) r htail
      · obtain ⟨-, hout⟩ := interval_loop_stay m ts w f g g' out hc h
        rw [hout] at hr
        exact absurd hr (List.not_mem_nil _)
  intro fuel g g' out h r hr
  cases fuel with
  | zero => simp [interval_loop_zero] at h
  | succ m =>
    by_cases hc : ts.tv_sec > g.next_interval_time_sec ∧
        ts.tv_nsec > g.next_interval_time_nsec
    · obtain ⟨rest, hrest, hout⟩ := interval_loop_cross m ts w f g g' out hc h
      subst hout
      exact all_zero m (advance w f g) g' rest hrest (advance_packet_count w f g) r hr
    · obtain ⟨-, hout⟩ := interval_loop_stay m ts w f g g' out hc h
      rw [hout] at hr
      exact absurd hr (List.not_mem_nil _)

/-- C12 as stated fails: with a window of 10 s, the boundary at 10 s 5 ns and
three packets counted, a packet stamped 22 s 0 ns is later than the
boundaries 10 s 5 ns and 20 s 5 ns when seconds are compared first, yet the
call prints nothing and leaves the boundary where it was, because
`0 > 5` is false. -/
theorem later_by_seconds_prints_nothing :
    per_packet ⟨22, 0⟩ 10 0 ⟨3, 10, 5⟩ = some (⟨4, 10, 5⟩, []) ∧
    total_nsec 22 0 > total_nsec 10 5 ∧ total_nsec 22 0 > total_nsec 20 5 := by
  decide

/-- C12 amended: for a window of at least one nanosecond, a call of
`per_packet` that finds the boundary seeded and whose timestamp has
`tv_sec` above the seconds and `tv_nsec` above the nanoseconds of each of
the `k` successive boundaries (the boundary at entry advanced `0, 1, ...,
k - 1` times by lines 300-305, the `i`-th lying `i` window lengths after
the first) returns and prints at least `k` lines, the `i`-th of which
carries the `i`-th boundary; every line after the first carries the count
`0`. -/
theorem empty_windows_are_printed (ts : Timespec) (interval_sec interval_nsec : Int)
    (g : Globals) (k : Nat)
    (hlen : 0 < interval_sec * 1000000000 + interval_nsec)
    (hseeded : g.next_interval_time_sec ≠ 0)
    (hlater : ∀ i, i < k →
      ts.tv_sec > ((advance interval_sec interval_nsec)^[i] g).next_interval_time_sec ∧
      ts.tv_nsec > ((advance interval_sec interval_nsec)^[i] g).next_interval_time_nsec) :
    ∃ g' out, per_packet ts interval_sec interval_nsec g = some (g', out) ∧
      k ≤ out.length ∧
      (∀ i, i < k → ∃ r, out[i]? = some r ∧
        r.window_end_sec
          = ((advance interval_sec interval_nsec)^[i] g).next_interval_time_sec ∧
        r.window_end_nsec
          = ((advance interval_sec interval_nsec)^[i] g).next_interval_time_nsec ∧
        total_nsec r.window_end_sec r.window_end_nsec
          = total_nsec g.next_interval_time_sec g.next_interval_time_nsec
            + i * (interval_sec * 1000000000 + interval_nsec) ∧
        r.count = if i = 0 then g.packet_count else 0) ∧
      (∀ r, r ∈ out.tail → r.count = 0) := by
  have hfp : first_packet ts interval_sec interval_nsec g = g := by
    simp only [first_packet, hseeded, if_false]
  obtain ⟨g2, out, hrun, -, -⟩ := interval_loop_returns ts interval_sec interval_nsec hlen
    (interval_fuel ts g) g (by unfold interval_fuel; omega)
  obtain ⟨hk, hget⟩ := interval_loop_prefix ts interval_sec interval_nsec k _ g g2 out hrun hlater
  refine ⟨{ g2 with packet_count := u64_incr g2.packet_count }, out, ?_, hk, ?_,
    interval_loop_counts ts interval_sec interval_nsec _ g g2 out hrun⟩
  · simp only [per_packet, hfp, hrun]
  · intro i hi
    refine ⟨_, hget i hi, rfl, rfl, advance_total interval_sec interval_nsec i g, ?_⟩
    cases i with
    | zero => simp
    | succ j =>
      simp only [Nat.succ_ne_zero, if_false]
      exact advance_iterate_count interval_sec interval_nsec j g

theorem empty_windows_are_printed_witness :
    (0 : Int) < 10 * 1000000000 + 0 ∧
    (⟨3, 10, 5⟩ : Globals).next_interval_time_sec ≠ 0 ∧
    (∀ i, i < 2 →
      (⟨32, 7⟩ : Timespec).tv_sec
        > ((advance 10 0)^[i] ⟨3, 10, 5⟩).next_interval_time_sec ∧
      (⟨32, 7⟩ : Timespec).tv_nsec
        > ((advance 10 0)^[i] ⟨3, 10, 5⟩).next_interval_time_nsec) ∧
    ∃ g' out, per_packet ⟨32, 7⟩ 10 0 ⟨3, 10, 5⟩ = some (g', out) ∧
      2 ≤ out.length ∧
      (∀ i, i < 2 → ∃ r, out[i]? = some r ∧
        r.window_end_sec = ((advance 10 0)^[i] ⟨3, 10, 5⟩).next_interval_time_sec ∧
        r.window_end_nsec = ((advance 10 0)^[i] ⟨3, 10, 5⟩).next_interval_time_nsec ∧
        total_nsec r.window_end_sec r.window_end_nsec
          = total_nsec (⟨3, 10, 5⟩ : Globals).next_interval_time_sec
              (⟨3, 10, 5⟩ : Globals).next_interval_time_nsec
            + i * (10 * 1000000000 + 0) ∧
        r.count = if i = 0 then (⟨3, 10, 5⟩ : Globals).packet_count else 0) ∧
      (∀ r, r ∈ out.tail → r.count = 0) :=
  ⟨by decide, by decide, by decide,
    empty_windows_are_printed ⟨32, 7⟩ 10 0 ⟨3, 10, 5⟩ 2 (by decide) (by decide) (by decide)⟩

/-! ## Worked example of the counter -/

/-- C13 as stated fails: with a window of 10 s and packets stamped 0 s, 5 s
and 22 s (0 ns each), the three calls of `per_packet` print nothing at all
and end with the boundary still at 10 s and `packet_count = 3`; the second
call leaves `packet_count = 2`, not `1`. -/
theorem worked_example_prints_nothing :
    read_packets 10 0 [⟨0, 0⟩, ⟨5, 0⟩, ⟨22, 0⟩] initial_globals = some (⟨3, 10, 0⟩, []) ∧
    read_packets 10 0 [⟨0, 0⟩, ⟨5, 0⟩] initial_globals = some (⟨2, 10, 0⟩, []) ∧
    read_packets 10 0 [⟨0, 0⟩, ⟨5, 0⟩, ⟨22, 0⟩] initial_globals
      ≠ some (⟨0, 30, 0⟩, [⟨10, 0, 2⟩, ⟨20, 0, 0⟩]) := by
  decide

/-- C13 amended: with a window of 10 s and packets stamped 0 s, 5 s and 22 s
(0 ns each), the first call seeds the boundary at 10 s, prints nothing and
leaves `packet_count = 1`; the second prints nothing and leaves
`packet_count = 2`; the third prints nothing, because `0 > 0` is false, and
leaves the boundary at 10 s and `packet_count = 3`.  With the third packet
stamped 22 s 1 ns the third call prints exactly the windows ending at 10 s
with count `2` and at 20 s with count `0`, and leaves the boundary at 30 s
and `packet_count = 1`.  The seconds-only loop of `pt_quantize_iat.c` on the
packets stamped 0 s, 5 s, 22 s leaves `next_interval_time_sec` at 10, 10
and 30. -/
theorem worked_example_counter :
    per_packet ⟨0, 0⟩ 10 0 initial_globals = some (⟨1, 10, 0⟩, []) ∧
    per_packet ⟨5, 0⟩ 10 0 ⟨1, 10, 0⟩ = some (⟨2, 10, 0⟩, []) ∧
    per_packet ⟨22, 0⟩ 10 0 ⟨2, 10, 0⟩ = some (⟨3, 10, 0⟩, []) ∧
    per_packet ⟨22, 1⟩ 10 0 ⟨2, 10, 0⟩
      = some (⟨1, 30, 0⟩, [⟨10, 0, 2⟩, ⟨20, 0, 0⟩]) ∧
    (PtQuantizeIat.read_packets 4 20 [⟨0, 0⟩]
        (PtQuantizeIat.initial_globals PtQuantizeIat.zero_mem)).map
      (fun g => g.next_interval_time_sec) = some 10 ∧
    (PtQuantizeIat.read_packets 4 20 [⟨0, 0⟩, ⟨5, 0⟩]
        (PtQuantizeIat.initial_globals PtQuantizeIat.zero_mem)).map
      (fun g => g.next_interval_time_sec) = some 10 ∧
    (PtQuantizeIat.read_packets 4 20 [⟨0, 0⟩, ⟨5, 0⟩, ⟨22, 0⟩]
        (PtQuantizeIat.initial_globals PtQuantizeIat.zero_mem)).map
      (fun g => g.next_interval_time_sec) = some 30 := by
  decide

/-! ## The boundary is seeded by a test against zero -/

/-- C20 (the code departs from the claim): with a window of 0.5 s
(`interval_sec = 0`, `interval_nsec = 500000000`) and packets stamped
0 s 100000000 ns and 0 s 200000000 ns, the first call seeds the boundary at
0 s 600000000 ns; its seconds field is `0`, so the test
`next_interval_time_sec == 0` of line 287 holds again in the second call,
which seeds the boundary anew at 0 s 700000000 ns. -/
theorem boundary_seeded_twice :
    per_packet ⟨0, 100000000⟩ 0 500000000 initial_globals
      = some (⟨1, 0, 600000000⟩, []) ∧
    first_packet ⟨0, 200000000⟩ 0 500000000 ⟨1, 0, 600000000⟩ = ⟨1, 0, 700000000⟩ ∧
    per_packet ⟨0, 200000000⟩ 0 500000000 ⟨1, 0, 600000000⟩
      = some (⟨2, 0, 700000000⟩, []) := by
  decide

/-- C11 (the code departs from the claim): with a window of 10 s and
packets stamped -20 s 5 ns, -5 s 6 ns, 7 s 6 ns, 18 s 7 ns, the second call prints
the window ending at -10 s 5 ns and advances the boundary to 0 s 5 ns; the
third call finds `next_interval_time_sec == 0` and seeds the boundary anew
at 17 s 6 ns; the fourth prints the window ending at 17 s 6 ns.  The two
window ends printed lie 27000000001 ns apart, not 10000000000 ns. -/
theorem window_ends_after_second_seed :
    read_packets 10 0 [⟨-20, 5⟩, ⟨-5, 6⟩, ⟨7, 6⟩, ⟨18, 7⟩] initial_globals
      = some (⟨1, 27, 6⟩, [⟨-10, 5, 1⟩, ⟨17, 6, 2⟩]) ∧
    read_packets 10 0 [⟨-20, 5⟩, ⟨-5, 6⟩] initial_globals
      = some (⟨1, 0, 5⟩, [⟨-10, 5, 1⟩]) ∧
    total_nsec 17 6 - total_nsec (-10) 5 = 27000000001 ∧
    total_nsec 17 6 - total_nsec (-10) 5 ≠ 10 * 1000000000 + 0 := by
  decide

/-! ## Nanosecond fields of the printed window ends -/

theorem advance_nsec_range (w f : Int) (g : Globals) (hf0 : 0 ≤ f) (hf1 : f < 1000000000)
    (h0 : 0 ≤ g.next_interval_time_nsec) (h1 : g.next_interval_time_nsec < 1000000000) :
    0 ≤ (advance w f g).next_interval_time_nsec ∧
    (advance w f g).next_interval_time_nsec < 1000000000 := by
  simp only [advance]
  split_ifs with hc <;> simp only <;> omega

theorem interval_loop_nsec (ts : Timespec) (w f : Int) (hf0 : 0 ≤ f) (hf1 : f < 1000000000)
    (hts : ts.tv_nsec < 1000000000) :
    ∀ (fuel : Nat) (g g' : Globals) (out : List Record),
      interval_loop fuel ts w f g = some (g', out) →
      0 ≤ g.next_interval_time_nsec →
      0 ≤ g'.next_interval_time_nsec ∧
      (∀ r, r ∈ out → 0 ≤ r.window_end_nsec ∧ r.window_end_nsec < 1000000000) ∧
      (out ≠ [] → g'.next_interval_time_nsec < 1000000000) ∧
      (out = [] → g' = g) := by
  intro fuel
  induction fuel with
  | zero => intro g g' out h; simp [interval_loop_zero] at h
  | succ m ih =>
    intro g g' out h h0
    by_cases hc : ts.tv_sec > g.next_interval_time_sec ∧
        ts.tv_nsec > g.next_interval_time_nsec
    · obtain ⟨rest, hrest, hout⟩ := interval_loop_cross m ts w f g g' out hc h
      have hadv := advance_nsec_range w f g hf0 hf1 h0 (by omega)
      obtain ⟨i0, irec, ilt, ieq⟩ := ih (advance w f g) g' rest hrest hadv.1
      subst hout
      refine ⟨i0, ?_, ?_, fun hnil => absurd hnil (List.cons_ne_nil _ _)⟩
      · intro r hr
        rcases List.mem_cons.mp hr with hhead | htail
        · rw [hhead]; simp only; omega
        · exact irec r htail
      · intro _
        by_cases hrest_nil : rest = []
        · rw [ieq hrest_nil]; exact hadv.2
        · exact ilt hrest_nil
    · obtain ⟨hg, hout⟩ := interval_loop_stay m ts w f g g' out hc h
      subst hg hout
      exact ⟨h0, fun r hr => absurd hr (List.not_mem_nil _), fun hne => absurd rfl hne,
        fun _ => rfl⟩

theorem per_packet_returns (ts : Timespec) (w f : Int) (g : Globals)
    (hlen : 0 < w * 1000000000 + f) :
    ∃ g' out, per_packet ts w f g = some (g', out) := by
  obtain ⟨g2, out, hrun, -, -⟩ := interval_loop_returns ts w f hlen
    (interval_fuel ts (first_packet ts w f g)) (first_packet ts w f g)
    (by unfold interval_fuel; omega)
  exact ⟨{ g2 with packet_count := u64_incr g2.packet_count }, out,
    by simp only [per_packet, hrun]⟩

theorem read_packets_returns (w f : Int) (hlen : 0 < w * 1000000000 + f) :
    ∀ (trace : List Timespec) (g : Globals),
      ∃ g' out, read_packets w f trace g = some (g', out) := by
  intro trace
  induction trace with
  | nil => intro g; exact ⟨g, [], rfl⟩
  | cons ts rest ih =>
    intro g
    obtain ⟨g1, out1, h1⟩ := per_packet_returns ts w f g hlen
    obtain ⟨g2, out2, h2⟩ := ih g1
    exact ⟨g2, out1 ++ out2, by simp only [read_packets, h1, h2, Option.map_some']⟩

theorem per_packet_some (ts : Timespec) (w f : Int) (g g' : Globals) (out : List Record)
    (h : per_packet ts w f g = some (g', out)) :
    ∃ g2, interval_loop (interval_fuel ts (first_packet ts w f g)) ts w f
        (first_packet ts w f g) = some (g2, out) ∧
      g' = { g2 with packet_count := u64_incr g2.packet_count } := by
  unfold per_packet at h
  cases hl : interval_loop (interval_fuel ts (first_packet ts w f g)) ts w f
      (first_packet ts w f g) with
  | none => simp [hl] at h
  | some r =>
    obtain ⟨g2, out2⟩ := r
    simp only [hl, Option.some.injEq, Prod.mk.injEq] at h
    exact ⟨g2, by rw [h.2], h.1.symm⟩

theorem read_packets_cons_some (w f : Int) (ts : Timespec) (rest : List Timespec)
    (g g' : Globals) (out : List Record)
    (h : read_packets w f (ts :: rest) g = some (g', out)) :
    ∃ g1 out1 out2, per_packet ts w f g = some (g1, out1) ∧
      read_packets w f rest g1 = some (g', out2) ∧ out = out1 ++ out2 := by
  simp only [read_packets] at h
  cases h1 : per_packet ts w f g with
  | none => simp [h1] at h
  | some r1 =>
    obtain ⟨g1, out1⟩ := r1
    simp only [h1] at h
    cases h2 : read_packets w f rest g1 with
    | none => simp [h2] at h
    | some r2 =>
      obtain ⟨g2, out2⟩ := r2
      simp only [h2, Option.map_some', Option.some.injEq, Prod.mk.injEq] at h
      exact ⟨g1, out1, out2, rfl, by rw [h2, h.1], h.2.symm⟩

theorem per_packet_nsec (ts : Timespec) (w f : Int) (g g' : Globals) (out : List Record)
    (hf0 : 0 ≤ f) (hf1 : f < 1000000000)
    (hts0 : 0 ≤ ts.tv_nsec) (hts1 : ts.tv_nsec < 1000000000)
    (h0 : 0 ≤ g.next_interval_time_nsec)
    (h : per_packet ts w f g = some (g', out)) :
    0 ≤ g'.next_interval_time_nsec ∧
    (∀ r, r ∈ out → 0 ≤ r.window_end_nsec ∧ r.window_end_nsec < 1000000000) ∧
    (out ≠ [] → g'.next_interval_time_nsec < 1000000000) := by
  have hfp : 0 ≤ (first_packet ts w f g).next_interval_time_nsec := by
    simp only [first_packet]
    split_ifs
    · simp only; omega
    · exact h0
  obtain ⟨g2, hrun, hg'⟩ := per_packet_some ts w f g g' out h
  obtain ⟨i0, irec, ilt, -⟩ := interval_loop_nsec ts w f hf0 hf1 hts1 _ _ g2 out hrun hfp
  subst hg'
  exact ⟨i0, irec, ilt⟩

theorem read_packets_nsec (w f : Int) (hf0 : 0 ≤ f) (hf1 : f < 1000000000) :
    ∀ (trace : List Timespec) (g g' : Globals) (out : List Record),
      (∀ t, t ∈ trace → 0 ≤ t.tv_nsec ∧ t.tv_nsec < 1000000000) →
      0 ≤ g.next_interval_time_nsec →
      read_packets w f trace g = some (g', out) →
      0 ≤ g'.next_interval_time_nsec ∧
      (∀ r, r ∈ out → 0 ≤ r.window_end_nsec ∧ r.window_end_nsec < 1000000000) := by
  intro trace
  induction trace with
  | nil =>
    intro g g' out _ h0 h
    simp only [read_packets, Option.some.injEq, Prod.mk.injEq] at h
    obtain ⟨hg, hout⟩ := h
    subst hg hout
    exact ⟨h0, fun r hr => absurd hr (List.not_mem_nil _)⟩
  | cons ts rest ih =>
    intro g g' out hfrac h0 h
    obtain ⟨hts0, hts1⟩ := hfrac ts (List.mem_cons_self _ _)
    obtain ⟨g1, out1, out2, h1, h2, hout⟩ := read_packets_cons_some w f ts rest g g' out h
    obtain ⟨n1, r1, -⟩ := per_packet_nsec ts w f g g1 out1 hf0 hf1 hts0 hts1 h0 h1
    obtain ⟨n2, r2⟩ :=
      ih g1 g' out2 (fun t ht => hfrac t (List.mem_cons_of_mem _ ht)) n1 h2
    subst hout
    refine ⟨n2, ?_⟩
    intro r hr
    rcases List.mem_append.mp hr with hl | hr2
    · exact r1 r hl
    · exact r2 r hr2

/-- C19: for a window whose nanosecond part is in `[0, 10^9)` and for every
trace of packets whose `tv_nsec` is in `[0, 10^9)`, read from program
start: every line printed by any call carries a window-end nanosecond field
in `[0, 10^9)`, and after a call that printed a line
`next_interval_time_nsec` is in `[0, 10^9)`; for a window of at least one
nanosecond every call returns. -/
theorem window_ends_well_formed (interval_sec interval_nsec : Int)
    (trace : List Timespec) (ts : Timespec)
    (hf0 : 0 ≤ interval_nsec) (hf1 : interval_nsec < 1000000000)
    (hfrac : ∀ t, t ∈ trace ++ [ts] → 0 ≤ t.tv_nsec ∧ t.tv_nsec < 1000000000) :
    (∀ (g g' : Globals) (earlier out : List Record),
      read_packets interval_sec interval_nsec trace initial_globals = some (g, earlier) →
      per_packet ts interval_sec interval_nsec g = some (g', out) →
      (∀ r, r ∈ earlier ++ out →
        0 ≤ r.window_end_nsec ∧ r.window_end_nsec < 1000000000) ∧
      (out ≠ [] →
        0 ≤ g'.next_interval_time_nsec ∧ g'.next_interval_time_nsec < 1000000000)) ∧
    (0 < interval_sec * 1000000000 + interval_nsec →
      ∃ g earlier g' out,
        read_packets interval_sec interval_nsec trace initial_globals = some (g, earlier) ∧
        per_packet ts interval_sec interval_nsec g = some (g', out)) := by
  constructor
  · intro g g' earlier out hread hcall
    obtain ⟨hn, hrec⟩ :=
      read_packets_nsec interval_sec interval_nsec hf0 hf1 trace initial_globals g earlier
        (fun t ht => hfrac t (List.mem_append_left _ ht)) (by decide) hread
    obtain ⟨hts0, hts1⟩ := hfrac ts (List.mem_append_right _ (List.mem_singleton_self ts))
    obtain ⟨n1, r1, l1⟩ :=
      per_packet_nsec ts interval_sec interval_nsec g g' out hf0 hf1 hts0 hts1 hn hcall
    refine ⟨?_, fun hne => ⟨n1, l1 hne⟩⟩
    intro r hr
    rcases List.mem_append.mp hr with hl | hr2
    · exact hrec r hl
    · exact r1 r hr2
  · intro hlen
    obtain ⟨g, earlier, hread⟩ :=
      read_packets_returns interval_sec interval_nsec hlen trace initial_globals
    obtain ⟨g', out, hcall⟩ := per_packet_returns ts interval_sec interval_nsec g hlen
    exact ⟨g, earlier, g', out, hread, hcall⟩

theorem window_ends_well_formed_witness :
    (0 : Int) ≤ 500000000 ∧ (500000000 : Int) < 1000000000 ∧
    (∀ t, t ∈ [(⟨5, 100⟩ : Timespec), ⟨6, 200⟩] ++ [⟨9, 700000000⟩] →
      0 ≤ t.tv_nsec ∧ t.tv_nsec < 1000000000) ∧
    (∀ (g g' : Globals) (earlier out : List Record),
      read_packets 1 500000000 [⟨5, 100⟩, ⟨6, 200⟩] initial_globals = some (g, earlier) →
      per_packet ⟨9, 700000000⟩ 1 500000000 g = some (g', out) →
      (∀ r, r ∈ earlier ++ out →
        0 ≤ r.window_end_nsec ∧ r.window_end_nsec < 1000000000) ∧
      (out ≠ [] →
        0 ≤ g'.next_interval_time_nsec ∧ g'.next_interval_time_nsec < 1000000000)) ∧
    ((0 : Int) < 1 * 1000000000 + 500000000 →
      ∃ g earlier g' out,
        read_packets 1 500000000 [⟨5, 100⟩, ⟨6, 200⟩] initial_globals = some (g, earlier) ∧
        per_packet ⟨9, 700000000⟩ 1 500000000 g = some (g', out)) :=
  ⟨by decide, by decide, by decide,
    window_ends_well_formed 1 500000000 [⟨5, 100⟩, ⟨6, 200⟩] ⟨9, 700000000⟩
      (by decide) (by decide) (by decide)⟩

/-! ## Window ends on traces that start at or after the epoch -/

theorem advance_sec_le (w f : Int) (g : Globals) (hw : 0 ≤ w) :
    g.next_interval_time_sec ≤ (advance w f g).next_interval_time_sec := by
  simp only [advance]
  split_ifs <;> simp only <;> omega

theorem interval_loop_ends (ts : Timespec) (w f : Int) (hw : 0 ≤ w) :
    ∀ (fuel : Nat) (g g' : Globals) (out : List Record),
      interval_loop fuel ts w f g = some (g', out) →
      (∀ (k : Nat) (r : Record), out[k]? = some r →
        total_nsec r.window_end_sec r.window_end_nsec
          = total_nsec g.next_interval_time_sec g.next_interval_time_nsec
            + k * (w * 1000000000 + f)) ∧
      total_nsec g'.next_interval_time_sec g'.next_interval_time_nsec
        = total_nsec g.next_interval_time_sec g.next_interval_time_nsec
          + out.length * (w * 1000000000 + f) ∧
      g.next_interval_time_sec ≤ g'.next_interval_time_sec := by
  intro fuel
  induction fuel with
  | zero => intro g g' out h; simp [interval_loop_zero] at h
  | succ m ih =>
    intro g g' out h
    by_cases hc : ts.tv_sec > g.next_interval_time_sec ∧
        ts.tv_nsec > g.next_interval_time_nsec
    · obtain ⟨rest, hrest, hout⟩ := interval_loop_cross m ts w f g g' out hc h
      obtain ⟨iget, itot, isec⟩ := ih (advance w f g) g' rest hrest
      have hadv := total_nsec_advance w f g
      subst hout
      refine ⟨?_, ?_, le_trans (advance_sec_le w f g hw) isec⟩
      · intro k r hk
        cases k with
        | zero =>
          simp only [List.getElem?_cons_zero, Option.some.injEq] at hk
          subst hk
          simp
        | succ j =>
          rw [List.getElem?_cons_succ] at hk
          rw [iget j r hk, hadv]
          push_cast
          ring
      · rw [itot, hadv, List.length_cons]
        push_cast
        ring
    · obtain ⟨hg, hout⟩ := interval_loop_stay m ts w f g g' out hc h
      subst hg hout
      refine ⟨fun k r hk => ?_, by simp, le_refl _⟩
      simp at hk

theorem per_packet_seeded (ts : Timespec) (w f : Int) (g : Globals) (hw : 0 ≤ w)
    (hlen : 0 < w * 1000000000 + f) (hpos : 0 < g.next_interval_time_sec) :
    ∃ g' out, per_packet ts w f g = some (g', out) ∧
      (∀ (k : Nat) (r : Record), out[k]? = some r →
        total_nsec r.window_end_sec r.window_end_nsec
          = total_nsec g.next_interval_time_sec g.next_interval_time_nsec
            + k * (w * 1000000000 + f)) ∧
      total_nsec g'.next_interval_time_sec g'.next_interval_time_nsec
        = total_nsec g.next_interval_time_sec g.next_interval_time_nsec
          + out.length * (w * 1000000000 + f) ∧
      0 < g'.next_interval_time_sec := by
  have hfp : first_packet ts w f g = g := by
    simp only [first_packet, (ne_of_gt hpos), if_false]
  obtain ⟨g2, out, hrun, -, -⟩ := interval_loop_returns ts w f hlen
    (interval_fuel ts g) g (by unfold interval_fuel; omega)
  obtain ⟨iget, itot, isec⟩ := interval_loop_ends ts w f hw _ g g2 out hrun
  exact ⟨{ g2 with packet_count := u64_incr g2.packet_count }, out,
    by simp only [per_packet, hfp, hrun], iget, itot, lt_of_lt_of_le hpos isec⟩

theorem per_packet_unseeded (ts : Timespec) (w f : Int) (g : Globals) (hw : 0 ≤ w)
    (hzero : g.next_interval_time_sec = 0) (hts : 0 ≤ ts.tv_sec) :
    ∃ g', per_packet ts w f g = some (g', []) ∧ 0 ≤ g'.next_interval_time_sec := by
  have hc : ¬ (ts.tv_sec > ts.tv_sec + w ∧ ts.tv_nsec > ts.tv_nsec + f) := by omega
  refine ⟨⟨u64_incr g.packet_count, ts.tv_sec + w, ts.tv_nsec + f⟩, ?_, ?_⟩
  · simp only [per_packet, first_packet, hzero, if_true, interval_fuel, interval_loop, hc,
      if_false]
  · simp only; omega

theorem read_packets_seeded (w f : Int) (hw : 0 ≤ w) (hlen : 0 < w * 1000000000 + f) :
    ∀ (trace : List Timespec) (g : Globals), 0 < g.next_interval_time_sec →
      ∃ g' out, read_packets w f trace g = some (g', out) ∧
        ∀ (k : Nat) (r : Record), out[k]? = some r →
          total_nsec r.window_end_sec r.window_end_nsec
            = total_nsec g.next_interval_time_sec g.next_interval_time_nsec
              + k * (w * 1000000000 + f) := by
  intro trace
  induction trace with
  | nil => intro g _; exact ⟨g, [], rfl, fun k r hk => by simp at hk⟩
  | cons ts rest ih =>
    intro g hpos
    obtain ⟨g1, out1, h1, get1, tot1, pos1⟩ := per_packet_seeded ts w f g hw hlen hpos
    obtain ⟨g2, out2, h2, get2⟩ := ih g1 pos1
    refine ⟨g2, out1 ++ out2, by simp only [read_packets, h1, h2, Option.map_some'], ?_⟩
    intro k r hk
    by_cases hlt : k < out1.length
    · rw [List.getElem?_append_left hlt] at hk
      exact get1 k r hk
    · have hle : out1.length ≤ k := by omega
      rw [List.getElem?_append_right hle] at hk
      rw [get2 (k - out1.length) r hk, tot1, Nat.cast_sub hle]
      ring

theorem read_packets_from_epoch (w f : Int) (hw : 0 ≤ w) (hlen : 0 < w * 1000000000 + f) :
    ∀ (trace : List Timespec) (g : Globals), 0 ≤ g.next_interval_time_sec →
      (∀ t, t ∈ trace → 0 ≤ t.tv_sec) →
      ∃ g' out first_end, read_packets w f trace g = some (g', out) ∧
        ∀ (k : Nat) (r : Record), out[k]? = some r →
          total_nsec r.window_end_sec r.window_end_nsec
            = first_end + k * (w * 1000000000 + f) := by
  intro trace
  induction trace with
  | nil => intro g _ _; exact ⟨g, [], 0, rfl, fun k r hk => by simp at hk⟩
  | cons ts rest ih =>
    intro g hg hsec
    by_cases hzero : g.next_interval_time_sec = 0
    · obtain ⟨g1, h1, n1⟩ :=
        per_packet_unseeded ts w f g hw hzero (hsec ts (List.mem_cons_self _ _))
      obtain ⟨g2, out2, first_end, h2, get2⟩ :=
        ih g1 n1 (fun t ht => hsec t (List.mem_cons_of_mem _ ht))
      exact ⟨g2, out2, first_end,
        by simp only [read_packets, h1, h2, Option.map_some', List.nil_append], get2⟩
    · obtain ⟨g', out, h, hget⟩ :=
        read_packets_seeded w f hw hlen (ts :: rest) g (by omega)
      exact ⟨g', out, _, h, hget⟩

/-- What holds when the boundary is never seeded twice after a line was
printed: for a window of `interval_sec ≥ 0` whole seconds and a
length of at least one nanosecond, and for every trace whose packets all
have `tv_sec ≥ 0`, read from program start: every call returns, and over the
lines printed by the whole run, in order, each window end lies exactly
`interval_sec * 10^9 + interval_nsec` nanoseconds after the one before it,
also across calls, and the window ends are strictly increasing. -/
theorem window_ends_step_from_epoch (interval_sec interval_nsec : Int)
    (trace : List Timespec) (hw : 0 ≤ interval_sec)
    (hlen : 0 < interval_sec * 1000000000 + interval_nsec)
    (hsec : ∀ t, t ∈ trace → 0 ≤ t.tv_sec) :
    ∃ g out,
      read_packets interval_sec interval_nsec trace initial_globals = some (g, out) ∧
      (∀ (k : Nat) (a b : Record), out[k]? = some a → out[k + 1]? = some b →
        total_nsec b.window_end_sec b.window_end_nsec
          - total_nsec a.window_end_sec a.window_end_nsec
          = interval_sec * 1000000000 + interval_nsec) ∧
      (∀ (j k : Nat) (a b : Record), j < k → out[j]? = some a → out[k]? = some b →
        total_nsec a.window_end_sec a.window_end_nsec
          < total_nsec b.window_end_sec b.window_end_nsec) := by
  obtain ⟨g, out, first_end, hread, hget⟩ :=
    read_packets_from_epoch interval_sec interval_nsec hw hlen trace initial_globals
      (by decide) hsec
  refine ⟨g, out, hread, ?_, ?_⟩
  · intro k a b ha hb
    rw [hget k a ha, hget (k + 1) b hb]
    push_cast
    ring
  · intro j k a b hjk ha hb
    rw [hget j a ha, hget k b hb]
    have hcast : (j : Int) < (k : Int) := by exact_mod_cast hjk
    nlinarith

theorem window_ends_step_from_epoch_witness :
    (0 : Int) ≤ 10 ∧ (0 : Int) < 10 * 1000000000 + 0 ∧
    (∀ t, t ∈ [(⟨0, 0⟩ : Timespec), ⟨22, 5⟩, ⟨45, 7⟩] → 0 ≤ t.tv_sec) ∧
    ∃ g out,
      read_packets 10 0 [⟨0, 0⟩, ⟨22, 5⟩, ⟨45, 7⟩] initial_globals = some (g, out) ∧
      (∀ (k : Nat) (a b : Record), out[k]? = some a → out[k + 1]? = some b →
        total_nsec b.window_end_sec b.window_end_nsec
          - total_nsec a.window_end_sec a.window_end_nsec
          = 10 * 1000000000 + 0) ∧
      (∀ (j k : Nat) (a b : Record), j < k → out[j]? = some a → out[k]? = some b →
        total_nsec a.window_end_sec a.window_end_nsec
          < total_nsec b.window_end_sec b.window_end_nsec) :=
  ⟨by decide, by decide, by decide,
    window_ends_step_from_epoch 10 0 [⟨0, 0⟩, ⟨22, 5⟩, ⟨45, 7⟩]
      (by decide) (by decide) (by decide)⟩

/-! ## A window length that truncates to zero -/

theorem round_half_even_near (x : ℚ) :
    (round_half_even x : ℚ) ≤ x + 1 / 2 ∧ x - 1 / 2 ≤ (round_half_even x : ℚ) := by
  have h1 := Int.floor_le x
  have h2 := Int.lt_floor_add_one x
  have h3 : Int.fract x = x - ⌊x⌋ := rfl
  unfold round_half_even
  split_ifs with a b c
  · rw [h3] at a; constructor <;> linarith
  · rw [h3] at b; push_cast; constructor <;> linarith
  · rw [h3] at a b; constructor <;> linarith
  · rw [h3] at a b; push_cast; constructor <;> linarith

theorem round_half_even_nonneg (x : ℚ) (h : 0 ≤ x) : 0 ≤ round_half_even x := by
  have h1 : 0 ≤ ⌊x⌋ := Int.floor_nonneg.mpr h
  unfold round_half_even
  split_ifs <;> omega

theorem int_log_eq (x : ℚ) (e : Int) (h0 : 0 < x) (h1 : (2 : ℚ) ^ e ≤ x)
    (h2 : x < 2 ^ (e + 1)) : Int.log 2 x = e := by
  have a := (Int.zpow_le_iff_le_log (b := 2) (by norm_num) (x := e) h0).mp
    (by exact_mod_cast h1)
  have b := (Int.lt_zpow_iff_log_lt (b := 2) (by norm_num) (x := e + 1) h0).mp
    (by exact_mod_cast h2)
  omega

theorem binade_eq (x : ℚ) (e : Int) (h0 : 0 < x) (h1 : (2 : ℚ) ^ e ≤ x)
    (h2 : x < 2 ^ (e + 1)) (he : -1022 ≤ e) : binade x = e := by
  unfold binade
  rw [abs_of_pos h0, int_log_eq x e h0 h1 h2]
  omega

theorem binade_le (x : ℚ) (h0 : 0 < x) (h1 : x < 1) : binade x ≤ -1 := by
  have hlog : Int.log 2 |x| < 0 := by
    rw [abs_of_pos h0]
    exact (Int.lt_zpow_iff_log_lt (b := 2) (by norm_num) (x := 0) h0).mp (by simpa using h1)
  unfold binade
  omega

theorem round_to_double_small (x : ℚ) (h0 : 0 < x) (h1 : x ≤ 1 / 2) :
    0 ≤ round_to_double x ∧ round_to_double x < 1 := by
  have hb := binade_le x h0 (by linarith)
  have hulp_pos : (0 : ℚ) < 2 ^ (binade x - 52) := by positivity
  have hulp_le : (2 : ℚ) ^ (binade x - 52) ≤ 2 ^ (-53 : Int) :=
    zpow_le_zpow_right₀ (by norm_num) (by omega)
  have hnear := round_half_even_near (x / 2 ^ (binade x - 52))
  have hnn := round_half_even_nonneg (x / 2 ^ (binade x - 52)) (by positivity)
  unfold round_to_double
  constructor
  · have : (0 : ℚ) ≤ (round_half_even (x / 2 ^ (binade x - 52)) : ℚ) := by exact_mod_cast hnn
    positivity
  · have hmul : (round_half_even (x / 2 ^ (binade x - 52)) : ℚ) * 2 ^ (binade x - 52)
        ≤ (x / 2 ^ (binade x - 52) + 1 / 2) * 2 ^ (binade x - 52) :=
      mul_le_mul_of_nonneg_right hnear.1 (le_of_lt hulp_pos)
    have hexp : (x / 2 ^ (binade x - 52) + 1 / 2) * 2 ^ (binade x - 52)
        = x + 2 ^ (binade x - 52) / 2 := by
      field_simp
      ring
    have h53 : (2 : ℚ) ^ (-53 : Int) < 1 / 2 := by norm_num
    have hle := hmul.trans (le_of_eq hexp)
    generalize (2 : ℚ) ^ (binade x - 52) = u at hle hulp_le
    generalize (2 : ℚ) ^ (-53 : Int) = v at h53 hulp_le
    linarith

/-- Every positive window length of at most half a nanosecond, the double
nearest to `10^-10` among them, yields the step `(0, 0)`. -/
theorem interval_parts_below_nanosecond (x : ℚ) (h0 : 0 < x) (h1 : x ≤ 1 / 2000000000) :
    interval_sec_of x = 0 ∧ interval_nsec_of x = 0 := by
  have hsec : interval_sec_of x = 0 := by
    unfold interval_sec_of cast_to_integer
    rw [if_pos (le_of_lt h0), Int.floor_eq_zero_iff]
    constructor
    · exact le_of_lt h0
    · linarith
  refine ⟨hsec, ?_⟩
  unfold interval_nsec_of
  rw [hsec]
  simp only [Int.cast_zero, sub_zero]
  have hprod0 : (0 : ℚ) < x * 1000000000 := by positivity
  have hprod1 : x * 1000000000 ≤ 1 / 2 := by
    have := mul_le_mul_of_nonneg_right h1 (by norm_num : (0 : ℚ) ≤ 1000000000)
    linarith
  obtain ⟨r0, r1⟩ := round_to_double_small (x * 1000000000) hprod0 hprod1
  unfold cast_to_integer
  rw [if_pos r0, Int.floor_eq_zero_iff]
  exact ⟨r0, r1⟩

/-- The rounding of the product matters: for `-t 0.3`, whose `double` is
`5404319552844595 / 2^54`, the exact product is just below `300000000` and
the rounded one is `300000000`, so `interval_nsec = 300000000`. -/
theorem interval_parts_three_tenths :
    interval_sec_of (5404319552844595 / 2 ^ 54) = 0 ∧
    interval_nsec_of (5404319552844595 / 2 ^ 54) = 300000000 := by
  have hsec : interval_sec_of (5404319552844595 / 2 ^ 54) = 0 := by
    unfold interval_sec_of cast_to_integer
    rw [if_pos (by norm_num), Int.floor_eq_zero_iff]
    constructor <;> norm_num
  refine ⟨hsec, ?_⟩
  unfold interval_nsec_of
  rw [hsec]
  have hb : binade ((5404319552844595 / 2 ^ 54 - ((0 : Int) : ℚ)) * 1000000000) = 28 :=
    binade_eq _ 28 (by norm_num) (by norm_num) (by norm_num) (by norm_num)
  have hfl : ⌊(5404319552844595 / 2 ^ 54 - ((0 : Int) : ℚ)) * 1000000000
      / (2 : ℚ) ^ ((28 : Int) - 52)⌋ = 5033164799999999 := by
    rw [Int.floor_eq_iff]
    norm_num
  have hr : round_half_even ((5404319552844595 / 2 ^ 54 - ((0 : Int) : ℚ)) * 1000000000
      / (2 : ℚ) ^ ((28 : Int) - 52)) = 5033164800000000 := by
    unfold round_half_even
    rw [Int.fract, hfl]
    norm_num
  have hround : round_to_double
      ((5404319552844595 / 2 ^ 54 - ((0 : Int) : ℚ)) * 1000000000) = 300000000 := by
    unfold round_to_double
    rw [hb, hr]
    norm_num
  rw [hround]
  unfold cast_to_integer
  norm_num

theorem interval_loop_zero_step (ts : Timespec) (sec nsec : Int)
    (hc : ts.tv_sec > sec ∧ ts.tv_nsec > nsec) (hn : nsec < 1000000000) :
    ∀ (fuel count : Nat), interval_loop fuel ts 0 0 ⟨count, sec, nsec⟩ = none := by
  intro fuel
  induction fuel with
  | zero => intro count; rfl
  | succ m ih =>
    intro count
    have hadv : advance 0 0 ⟨count, sec, nsec⟩ = ⟨0, sec, nsec⟩ := by
      simp only [advance, add_zero]
      rw [if_neg (by omega)]
    simp only [interval_loop, hc, and_self, if_true, hadv, ih 0, Option.map_none']

/-! ## Validation of the window length -/

theorem argument_checks_by_interval (a : Arguments) :
    (a.time_interval ≤ 0 →
      argument_checks a ≠ LibError.EC_SUCCESS ∧ main_goes_on a = false) ∧
    (0 < a.time_interval →
      (∀ t : ℚ, 0 < t → argument_checks { a with time_interval := t } = argument_checks a) ∧
      (a.ec = LibError.EC_SUCCESS →
        argument_checks a ≠ LibError.EC_CLI_NO_TIME_INTERVAL_OPTION ∧
        argument_checks a ≠ LibError.EC_CLI_INVALID_TIME_INTERVAL) ∧
      (a.ec = LibError.EC_SUCCESS → a.input_file = some ⟨true, true⟩ →
        argument_checks a = LibError.EC_SUCCESS ∧ main_goes_on a = true)) := by
  obtain ⟨ec, file, ti⟩ := a
  constructor
  · intro hle
    simp only at hle
    have hne : argument_checks ⟨ec, file, ti⟩ ≠ LibError.EC_SUCCESS := by
      by_cases hec : ec = LibError.EC_SUCCESS
      · cases file <;>
          simp [argument_checks, valid_arguments, required_arguments, hec, hle,
            LibError.EC_SUCCESS, LibError.EC_CLI_NO_TIME_INTERVAL_OPTION]
      · simp [argument_checks, valid_arguments, required_arguments, hec]
    exact ⟨hne, by simp [main_goes_on, hne]⟩
  · intro hpos
    simp only at hpos
    have hnle : ¬ ti ≤ 0 := not_le.mpr hpos
    refine ⟨?_, ?_, ?_⟩
    · intro t ht
      have htn : ¬ t ≤ 0 := not_le.mpr ht
      by_cases hec : ec = LibError.EC_SUCCESS
      · rcases file with _ | ⟨pcap, acc⟩
        · simp [argument_checks, valid_arguments, required_arguments, hec, hnle, htn,
            LibError.EC_SUCCESS, LibError.EC_CLI_NO_INPUT_OPTION]
        · cases pcap <;> cases acc <;>
            simp [argument_checks, valid_arguments, required_arguments, hec, hnle, htn,
              LibError.EC_SUCCESS]
      · simp [argument_checks, valid_arguments, required_arguments, hec]
    · intro hec
      simp only at hec
      rcases file with _ | ⟨pcap, acc⟩
      · simp [argument_checks, valid_arguments, required_arguments, hec, hnle,
          LibError.EC_SUCCESS, LibError.EC_CLI_NO_INPUT_OPTION,
          LibError.EC_CLI_NO_TIME_INTERVAL_OPTION, LibError.EC_CLI_INVALID_TIME_INTERVAL]
      · cases pcap <;> cases acc <;>
          simp [argument_checks, valid_arguments, required_arguments, hec, hnle,
            LibError.EC_SUCCESS, LibError.EC_CLI_INVALID_INPUT_FILE,
            LibError.EC_CLI_INPUT_FILE_NOT_FOUND,
            LibError.EC_CLI_NO_TIME_INTERVAL_OPTION, LibError.EC_CLI_INVALID_TIME_INTERVAL]
    · intro hec hfile
      simp only at hec hfile
      have hok : argument_checks ⟨ec, file, ti⟩ = LibError.EC_SUCCESS := by
        simp [argument_checks, valid_arguments, required_arguments, hec, hfile, hnle,
          LibError.EC_SUCCESS]
      exact ⟨hok, by simp [main_goes_on, hok]⟩

/-- C16: in `main` of `pt_count_packet.c`, for every state of the locals
after parsing: if `time_interval <= 0` (as with the default `0`), the
argument checks end with an error code other than `EC_SUCCESS`, so `main`
leaves through `exit(EXIT_FAILURE)` and never calls `per_packet`; if
`time_interval > 0`, the outcome of the checks is the same for every other
positive value, they never yield `EC_CLI_NO_TIME_INTERVAL_OPTION` or
`EC_CLI_INVALID_TIME_INTERVAL` after a parse without error, and with an
accessible `.pcap` input file they end with `EC_SUCCESS`. -/
theorem window_length_validation (a : Arguments) :
    (a.time_interval ≤ 0 →
      argument_checks a ≠ LibError.EC_SUCCESS ∧ main_goes_on a = false) ∧
    (0 < a.time_interval →
      (∀ t : ℚ, 0 < t → argument_checks { a with time_interval := t } = argument_checks a) ∧
      (a.ec = LibError.EC_SUCCESS →
        argument_checks a ≠ LibError.EC_CLI_NO_TIME_INTERVAL_OPTION ∧
        argument_checks a ≠ LibError.EC_CLI_INVALID_TIME_INTERVAL) ∧
      (a.ec = LibError.EC_SUCCESS → a.input_file = some ⟨true, true⟩ →
        argument_checks a = LibError.EC_SUCCESS ∧ main_goes_on a = true)) :=
  argument_checks_by_interval a

theorem window_length_validation_witness :
    argument_checks ⟨0, some ⟨true, true⟩, 0⟩ ≠ LibError.EC_SUCCESS ∧
    main_goes_on ⟨0, some ⟨true, true⟩, 0⟩ = false :=
  (window_length_validation ⟨0, some ⟨true, true⟩, 0⟩).1 (le_refl _)

/-! ## The loop under a zero step -/

theorem per_packet_zero_step (ts : Timespec) (g : Globals)
    (hseeded : g.next_interval_time_sec ≠ 0)
    (hc : ts.tv_sec > g.next_interval_time_sec ∧ ts.tv_nsec > g.next_interval_time_nsec)
    (hn : g.next_interval_time_nsec < 1000000000) :
    per_packet ts 0 0 g = none := by
  have hfp : first_packet ts 0 0 g = g := by
    simp only [first_packet, hseeded, if_false]
  obtain ⟨count, sec, nsec⟩ := g
  simp only [per_packet, hfp, interval_loop_zero_step ts sec nsec hc hn]

/-- C15 (the code departs from the claim): the window length `10^-10` s is
positive and passes the argument checks of `main`, and the step the code
derives from it is `interval_sec = 0`, `interval_nsec = 0`.  With that step
the first call, for a packet stamped 5 s 100 ns, seeds the boundary at
5 s 100 ns; in the next call, for a packet stamped 6 s 200 ns, the test of
line 297 holds and the body leaves the boundary where it is, so the loop
gives no result for any amount of fuel and `per_packet` does not return. -/
theorem tiny_window_never_returns :
    (0 : ℚ) < 1 / 10000000000 ∧
    main_goes_on ⟨0, some ⟨true, true⟩, 1 / 10000000000⟩ = true ∧
    interval_sec_of (1 / 10000000000) = 0 ∧
    interval_nsec_of (1 / 10000000000) = 0 ∧
    per_packet ⟨5, 100⟩ 0 0 initial_globals = some (⟨1, 5, 100⟩, []) ∧
    per_packet ⟨6, 200⟩ 0 0 ⟨1, 5, 100⟩ = none ∧
    ∀ fuel, interval_loop fuel ⟨6, 200⟩ 0 0 ⟨1, 5, 100⟩ = none := by
  have hparts := interval_parts_below_nanosecond (1 / 10000000000) (by norm_num) (by norm_num)
  have hstuck := interval_loop_zero_step ⟨6, 200⟩ 5 100 (by decide) (by decide)
  refine ⟨by norm_num, ?_, hparts.1, hparts.2, by decide, ?_, fun fuel => hstuck fuel 1⟩
  · exact ((argument_checks_by_interval ⟨0, some ⟨true, true⟩, 1 / 10000000000⟩).2
      (by norm_num)).2.2 rfl rfl |>.2
  · exact per_packet_zero_step ⟨6, 200⟩ ⟨1, 5, 100⟩ (by decide) (by decide) (by decide)

end PtCountPacket

namespace PtQuantizeIat

/-! ## Validation of the bucket shift and of the bucket count -/

/-- With an accessible `.pcap` input file and a parse without error, the
argument checks pass exactly when the stored `quantize_time_order` is not
`0`; `iat_count_size` is not looked at. -/
theorem argument_checks_pass_iff (quantize_time_order iat_count_size : Nat) :
    argument_checks ⟨0, some ⟨true, true⟩, quantize_time_order, iat_count_size⟩
        = LibError.EC_SUCCESS
      ↔ quantize_time_order ≠ 0 := by
  by_cases hq : quantize_time_order = 0
  · simp [argument_checks, valid_arguments, required_arguments, hq, LibError.EC_SUCCESS,
      LibError.EC_CLI_NO_QUANTIZE_TIME_OPTION]
  · have h1 : ¬ quantize_time_order < 1 := by omega
    simp [argument_checks, valid_arguments, required_arguments, hq, h1, LibError.EC_SUCCESS]

/-- C17 (the code departs from the claim): for `-q -1` the value `-1` that
`strtol` returns is stored in the `uint64_t quantize_time_order` as
`2^64 - 1`; with an accessible `.pcap` input file neither
`quantize_time_order == 0` (line 193) nor `quantize_time_order < 1`
(line 205) holds, the checks end with `EC_SUCCESS` and `main` goes on to
packet processing.  For `-q 0` the checks end with
`EC_CLI_NO_QUANTIZE_TIME_OPTION`. -/
theorem negative_quantize_time_accepted :
    (parse_quantize_time (-1) false false
        { default_arguments with input_file := some ⟨true, true⟩ }).quantize_time_order
      = 18446744073709551615 ∧
    argument_checks (parse_quantize_time (-1) false false
        { default_arguments with input_file := some ⟨true, true⟩ })
      = LibError.EC_SUCCESS ∧
    main_goes_on (parse_quantize_time (-1) false false
        { default_arguments with input_file := some ⟨true, true⟩ }) = true ∧
    argument_checks (parse_quantize_time 0 false false
        { default_arguments with input_file := some ⟨true, true⟩ })
      = LibError.EC_CLI_NO_QUANTIZE_TIME_OPTION := by
  decide

/-- C18 (the code departs from the claim): for `-q 4 -s 0` with an
accessible `.pcap` input file the checks end with `EC_SUCCESS` and `main`
goes on with `iat_count_size = 0`, so no cell is reserved; the first packet
of a trace, stamped 0 s 5 ns, then has index `5 >> 4 = 0`, the test
`0 > 0` of line 475 is false and the cell at index `0` is written.  For
`-s -1` the checks also end with `EC_SUCCESS`, with
`iat_count_size = 2^64 - 1`. -/
theorem count_size_not_validated :
    argument_checks (parse_count_size 0 false false (parse_quantize_time 4 false false
        { default_arguments with input_file := some ⟨true, true⟩ }))
      = LibError.EC_SUCCESS ∧
    main_goes_on (parse_count_size 0 false false (parse_quantize_time 4 false false
        { default_arguments with input_file := some ⟨true, true⟩ })) = true ∧
    (parse_count_size 0 false false (parse_quantize_time 4 false false
        { default_arguments with input_file := some ⟨true, true⟩ })).iat_count_size = 0 ∧
    (read_packets 4 0 [⟨0, 5⟩] (initial_globals zero_mem)).map
      (fun g => (g.quantized_iat, g.quantized_iat_count 0)) = some (0, 1) ∧
    argument_checks (parse_count_size (-1) false false (parse_quantize_time 4 false false
        { default_arguments with input_file := some ⟨true, true⟩ }))
      = LibError.EC_SUCCESS ∧
    (parse_count_size (-1) false false (parse_quantize_time 4 false false
        { default_arguments with input_file := some ⟨true, true⟩ })).iat_count_size
      = 18446744073709551615 := by
  decide

end PtQuantizeIat

namespace PtCountPacket

/-! ## Elapsed time -/

/-- C26: for two clock readings with `tv_nsec` in `[0, 10^9)` and the end
not earlier than the start, the elapsed time computed by `main` of
`pt_count_packet.c` has `0 ≤ elapsed_time_nsec < 10^9`,
`elapsed_time_sec ≥ 0` and
`elapsed_time_sec * 10^9 + elapsed_time_nsec
  = (end.tv_sec - start.tv_sec) * 10^9 + (end.tv_nsec - start.tv_nsec)`;
`main` of `pt_quantize_iat.c` computes the same pair. -/
theorem elapsed_time_normalised (start_time end_time : Timespec)
    (hs0 : 0 ≤ start_time.tv_nsec) (hs1 : start_time.tv_nsec < 1000000000)
    (he0 : 0 ≤ end_time.tv_nsec) (he1 : end_time.tv_nsec < 1000000000)
    (horder : total_nsec start_time.tv_sec start_time.tv_nsec
      ≤ total_nsec end_time.tv_sec end_time.tv_nsec) :
    0 ≤ (elapsed_time start_time end_time).2 ∧
    (elapsed_time start_time end_time).2 < 1000000000 ∧
    0 ≤ (elapsed_time start_time end_time).1 ∧
    (elapsed_time start_time end_time).1 * 1000000000 + (elapsed_time start_time end_time).2
      = (end_time.tv_sec - start_time.tv_sec) * 1000000000
        + (end_time.tv_nsec - start_time.tv_nsec) ∧
    PtQuantizeIat.elapsed_time start_time end_time = elapsed_time start_time end_time := by
  simp only [total_nsec] at horder
  refine ⟨?_, ?_, ?_, ?_, rfl⟩ <;>
    · simp only [elapsed_time]
      split_ifs <;> simp only <;> omega

theorem elapsed_time_normalised_witness :
    (0 : Int) ≤ 900000000 ∧ (900000000 : Int) < 1000000000 ∧
    (0 : Int) ≤ 100000000 ∧ (100000000 : Int) < 1000000000 ∧
    total_nsec 5 900000000 ≤ total_nsec 7 100000000 ∧
    0 ≤ (elapsed_time ⟨5, 900000000⟩ ⟨7, 100000000⟩).2 ∧
    (elapsed_time ⟨5, 900000000⟩ ⟨7, 100000000⟩).2 < 1000000000 ∧
    0 ≤ (elapsed_time ⟨5, 900000000⟩ ⟨7, 100000000⟩).1 ∧
    (elapsed_time ⟨5, 900000000⟩ ⟨7, 100000000⟩).1 * 1000000000
        + (elapsed_time ⟨5, 900000000⟩ ⟨7, 100000000⟩).2
      = ((7 : Int) - 5) * 1000000000 + ((100000000 : Int) - 900000000) ∧
    PtQuantizeIat.elapsed_time ⟨5, 900000000⟩ ⟨7, 100000000⟩
      = elapsed_time ⟨5, 900000000⟩ ⟨7, 100000000⟩ :=
  ⟨by decide, by decide, by decide, by decide, by decide,
    elapsed_time_normalised ⟨5, 900000000⟩ ⟨7, 100000000⟩
      (by decide) (by decide) (by decide) (by decide) (by decide)⟩

end PtCountPacket

namespace PtQuantizeIat

/-! ## The required-argument check without an input file -/

theorem quantizer_required_without_input (quantize_time_order iat_count_size : Nat) :
    (required_arguments ⟨LibError.EC_SUCCESS, none, quantize_time_order, iat_count_size⟩).ec
      = LibError.EC_CLI_NO_INPUT_OPTION := by
  simp [required_arguments]

end PtQuantizeIat

namespace PtCountPacket

theorem counter_required_without_input (time_interval : ℚ) :
    (required_arguments ⟨LibError.EC_SUCCESS, none, time_interval⟩).ec
      = if time_interval ≤ 0 then LibError.EC_CLI_NO_TIME_INTERVAL_OPTION
        else LibError.EC_CLI_NO_INPUT_OPTION := by
  by_cases h : time_interval ≤ 0 <;> simp [required_arguments, h]

/-- C27 (the code departs from the claim): in `pt_count_packet.c`, after a
parse without error in which neither `-i` nor `-t` was given (as for the
command line `pt_count_packet -v`), `input_file` is `NULL` and
`time_interval` is `0`; the required-argument check first sets
`EC_CLI_NO_INPUT_OPTION` and then, in a second `if` that is not an `else`,
replaces it by `EC_CLI_NO_TIME_INTERVAL_OPTION` (0x1804).  In
`pt_quantize_iat.c` the same situation, with `-q` missing too, ends with
`EC_CLI_NO_INPUT_OPTION` (0x1801). -/
theorem missing_input_reported_as_missing_interval :
    (required_arguments ⟨LibError.EC_SUCCESS, none, 0⟩).ec
      = LibError.EC_CLI_NO_TIME_INTERVAL_OPTION ∧
    LibError.EC_CLI_NO_TIME_INTERVAL_OPTION = 0x1804 ∧
    LibError.EC_CLI_NO_TIME_INTERVAL_OPTION ≠ LibError.EC_CLI_NO_INPUT_OPTION ∧
    argument_checks ⟨LibError.EC_SUCCESS, none, 0⟩
      = LibError.EC_CLI_NO_TIME_INTERVAL_OPTION ∧
    (PtQuantizeIat.required_arguments PtQuantizeIat.default_arguments).ec
      = LibError.EC_CLI_NO_INPUT_OPTION ∧
    LibError.EC_CLI_NO_INPUT_OPTION = 0x1801 := by
  refine ⟨?_, by decide, by decide, ?_, by decide, by decide⟩
  · rw [counter_required_without_input]; simp
  · simp [argument_checks, valid_arguments, required_arguments, LibError.EC_SUCCESS,
      LibError.EC_CLI_NO_TIME_INTERVAL_OPTION]

end PtCountPacket

namespace PtQuantizeIat

/-! ## The shift amount that passes the checks -/

theorem shiftRight_is_floor_div (delta : Int) (quantize_time_order : Nat) :
    delta >>> quantize_time_order = delta / 2 ^ quantize_time_order := by
  rw [Int.shiftRight_eq_div_pow]
  push_cast
  rfl

/-- C25 (the code departs from the claim): for `-q 64` with an accessible
`.pcap` input file the value `64` is stored in `quantize_time_order`, the
checks of lines 193 and 205 only exclude `0`, so they end with
`EC_SUCCESS` and `main` goes on with a shift amount that is not below `64`,
the width of `iat_usec`; likewise for `-q 200`, and for `-q -1`, stored as
`2^64 - 1`. -/
theorem shift_amount_not_bounded :
    (parse_quantize_time 64 false false
        { default_arguments with input_file := some ⟨true, true⟩ }).quantize_time_order
      = 64 ∧
    argument_checks (parse_quantize_time 64 false false
        { default_arguments with input_file := some ⟨true, true⟩ })
      = LibError.EC_SUCCESS ∧
    main_goes_on (parse_quantize_time 64 false false
        { default_arguments with input_file := some ⟨true, true⟩ }) = true ∧
    ¬ ((parse_quantize_time 64 false false
        { default_arguments with input_file := some ⟨true, true⟩ }).quantize_time_order
      < 64) ∧
    main_goes_on (parse_quantize_time 200 false false
        { default_arguments with input_file := some ⟨true, true⟩ }) = true ∧
    main_goes_on (parse_quantize_time (-1) false false
        { default_arguments with input_file := some ⟨true, true⟩ }) = true := by
  decide

end PtQuantizeIat

namespace PtCountPacket

/-! ## Every packet is counted once -/

theorem first_packet_count (ts : Timespec) (w f : Int) (g : Globals) :
    (first_packet ts w f g).packet_count = g.packet_count := by
  simp only [first_packet]
  split_ifs <;> rfl

theorem interval_loop_conserves (ts : Timespec) (w f : Int) :
    ∀ (fuel : Nat) (g g' : Globals) (out : List Record),
      interval_loop fuel ts w f g = some (g', out) →
      (out.map Record.count).sum + g'.packet_count = g.packet_count := by
  intro fuel
  induction fuel with
  | zero => intro g g' out h; simp [interval_loop_zero] at h
  | succ m ih =>
    intro g g' out h
    by_cases hc : ts.tv_sec > g.next_interval_time_sec ∧
        ts.tv_nsec > g.next_interval_time_nsec
    · obtain ⟨rest, hrest, hout⟩ := interval_loop_cross m ts w f g g' out hc h
      have hsum := ih (advance w f g) g' rest hrest
      rw [advance_packet_count] at hsum
      subst hout
      simp only [List.map_cons, List.sum_cons]
      omega
    · obtain ⟨hg, hout⟩ := interval_loop_stay m ts w f g g' out hc h
      subst hg hout
      simp

theorem per_packet_conserves (ts : Timespec) (w f : Int) (g g' : Globals)
    (out : List Record) (hroom : g.packet_count + 1 < UINT64_MOD)
    (h : per_packet ts w f g = some (g', out)) :
    (out.map Record.count).sum + g'.packet_count = g.packet_count + 1 := by
  obtain ⟨g2, hrun, hg'⟩ := per_packet_some ts w f g g' out h
  have hsum := interval_loop_conserves ts w f _ _ g2 out hrun
  rw [first_packet_count] at hsum
  subst hg'
  have hincr : u64_incr g2.packet_count = g2.packet_count + 1 := by
    unfold u64_incr
    exact Nat.mod_eq_of_lt (by omega)
  simp only [hincr]
  omega

theorem read_packets_conserves (w f : Int) :
    ∀ (trace : List Timespec) (g g' : Globals) (out : List Record),
      g.packet_count + trace.length < UINT64_MOD →
      read_packets w f trace g = some (g', out) →
      (out.map Record.count).sum + g'.packet_count = g.packet_count + trace.length := by
  intro trace
  induction trace with
  | nil =>
    intro g g' out _ h
    simp only [read_packets, Option.some.injEq, Prod.mk.injEq] at h
    obtain ⟨hg, hout⟩ := h
    subst hg hout
    simp
  | cons ts rest ih =>
    intro g g' out hroom h
    simp only [List.length_cons] at hroom
    obtain ⟨g1, out1, out2, h1, h2, hout⟩ := read_packets_cons_some w f ts rest g g' out h
    have hs1 := per_packet_conserves ts w f g g1 out1 (by omega) h1
    have hs2 := ih g1 g' out2 (by omega) h2
    subst hout
    simp only [List.map_append, List.sum_append, List.length_cons]
    omega

/-- C23: for every trace of fewer than `2^64` packets read from program
start, whatever the window: when the packet loop of `main` has returned,
the counts of all the lines printed plus the `packet_count` left over add up
to the number of packets of the trace; for a window of at least one
nanosecond the packet loop does return. -/
theorem packets_are_conserved (interval_sec interval_nsec : Int) (trace : List Timespec)
    (hsize : trace.length < UINT64_MOD) :
    (∀ (g : Globals) (out : List Record),
      read_packets interval_sec interval_nsec trace initial_globals = some (g, out) →
      (out.map Record.count).sum + g.packet_count = trace.length) ∧
    (0 < interval_sec * 1000000000 + interval_nsec →
      ∃ g out, read_packets interval_sec interval_nsec trace initial_globals
        = some (g, out)) := by
  constructor
  · intro g out h
    have hs := read_packets_conserves interval_sec interval_nsec trace initial_globals g out
      (by simp only [initial_globals]; omega) h
    simpa [initial_globals] using hs
  · intro hlen
    exact read_packets_returns interval_sec interval_nsec hlen trace initial_globals

theorem packets_are_conserved_witness :
    [(⟨0, 0⟩ : Timespec), ⟨5, 3⟩, ⟨22, 5⟩, ⟨23, 0⟩].length < UINT64_MOD ∧
    (∀ (g : Globals) (out : List Record),
      read_packets 10 0 [⟨0, 0⟩, ⟨5, 3⟩, ⟨22, 5⟩, ⟨23, 0⟩] initial_globals = some (g, out) →
      (out.map Record.count).sum + g.packet_count
        = [(⟨0, 0⟩ : Timespec), ⟨5, 3⟩, ⟨22, 5⟩, ⟨23, 0⟩].length) ∧
    ((0 : Int) < 10 * 1000000000 + 0 →
      ∃ g out, read_packets 10 0 [⟨0, 0⟩, ⟨5, 3⟩, ⟨22, 5⟩, ⟨23, 0⟩] initial_globals
        = some (g, out)) :=
  ⟨by decide, packets_are_conserved 10 0 [⟨0, 0⟩, ⟨5, 3⟩, ⟨22, 5⟩, ⟨23, 0⟩] (by decide)⟩

end PtCountPacket

namespace PtQuantizeIat

/-! ## Every sample is counted once -/

theorem sum_range_update (f : Nat → Nat) (i v : Nat) :
    ∀ n, ((List.range n).map (Function.update f i v)).sum + (if i < n then f i else 0)
      = ((List.range n).map f).sum + (if i < n then v else 0) := by
  intro n
  induction n with
  | zero => simp
  | succ m ih =>
    simp only [List.range_succ, List.map_append, List.sum_append, List.map_cons, List.map_nil,
      List.sum_cons, List.sum_nil, add_zero]
    by_cases h1 : i < m
    · have h2 : i < m + 1 := by omega
      have h3 : m ≠ i := by omega
      simp only [h1, h2, if_true, Function.update_noteq h3] at ih ⊢
      omega
    · by_cases h2 : i = m
      · subst h2
        simp only [lt_irrefl, if_false, add_zero, Nat.lt_succ_self, if_true,
          Function.update_same] at ih ⊢
        omega
      · have h3 : ¬ i < m + 1 := by omega
        have h4 : m ≠ i := fun h => h2 h.symm
        simp only [h1, h3, if_false, add_zero, Function.update_noteq h4] at ih ⊢
        omega

theorem quantize_cases (q size : Nat) (g : Globals) :
    (g.iat_usec < 0 ∧
      (quantize q size g).negtive_iat_count = u64_incr g.negtive_iat_count ∧
      (quantize q size g).exceed_max_iat_count = g.exceed_max_iat_count ∧
      (quantize q size g).quantized_iat_count = g.quantized_iat_count) ∨
    (0 ≤ g.iat_usec ∧ size < (g.iat_usec >>> q).toNat ∧
      (quantize q size g).exceed_max_iat_count = u64_incr g.exceed_max_iat_count ∧
      (quantize q size g).negtive_iat_count = g.negtive_iat_count ∧
      (quantize q size g).quantized_iat_count = g.quantized_iat_count) ∨
    (0 ≤ g.iat_usec ∧ (g.iat_usec >>> q).toNat ≤ size ∧
      (quantize q size g).quantized_iat_count
        = Function.update g.quantized_iat_count (g.iat_usec >>> q).toNat
            (u64_incr (g.quantized_iat_count (g.iat_usec >>> q).toNat)) ∧
      (quantize q size g).negtive_iat_count = g.negtive_iat_count ∧
      (quantize q size g).exceed_max_iat_count = g.exceed_max_iat_count) := by
  by_cases h1 : g.iat_usec < 0
  · left
    simp only [quantize, h1, if_true, and_self]
  · by_cases h2 : (g.iat_usec >>> q).toNat > size
    · right; left
      simp only [quantize, h1, h2, if_true, if_false, and_self, and_true]
      omega
    · right; right
      simp only [quantize, h1, h2, if_false, and_self, and_true]
      omega

theorem quantize_total (q size : Nat) (g : Globals)
    (hroom : g.negtive_iat_count + g.exceed_max_iat_count + (buckets size g).sum + 1
      < UINT64_MOD)
    (hidx : ¬ (0 ≤ g.iat_usec ∧ (g.iat_usec >>> q).toNat = size)) :
    (quantize q size g).negtive_iat_count + (quantize q size g).exceed_max_iat_count
        + (buckets size (quantize q size g)).sum
      = g.negtive_iat_count + g.exceed_max_iat_count + (buckets size g).sum + 1 := by
  rcases quantize_cases q size g with ⟨-, hn, he, hc⟩ | ⟨-, -, he, hn, hc⟩ | ⟨h0, hle, hc, hn, he⟩
  · have hincr : u64_incr g.negtive_iat_count = g.negtive_iat_count + 1 := by
      unfold u64_incr; exact Nat.mod_eq_of_lt (by omega)
    simp only [buckets, hn, he, hc, hincr]
    omega
  · have hincr : u64_incr g.exceed_max_iat_count = g.exceed_max_iat_count + 1 := by
      unfold u64_incr; exact Nat.mod_eq_of_lt (by omega)
    simp only [buckets, hn, he, hc, hincr]
    omega
  · have hlt : (g.iat_usec >>> q).toNat < size := by
      rcases Nat.lt_or_ge (g.iat_usec >>> q).toNat size with h | h
      · exact h
      · exact absurd ⟨h0, le_antisymm hle h⟩ hidx
    have hcell := sum_range_update g.quantized_iat_count (g.iat_usec >>> q).toNat 0 size
    have hsum := sum_range_update g.quantized_iat_count (g.iat_usec >>> q).toNat
      (u64_incr (g.quantized_iat_count (g.iat_usec >>> q).toNat)) size
    simp only [hlt, if_true, add_zero] at hcell hsum
    simp only [buckets] at hroom
    have hincr : u64_incr (g.quantized_iat_count (g.iat_usec >>> q).toNat)
        = g.quantized_iat_count (g.iat_usec >>> q).toNat + 1 := by
      unfold u64_incr; exact Nat.mod_eq_of_lt (by omega)
    rw [hincr] at hsum
    simp only [buckets, hn, he, hc, hincr]
    omega

theorem read_packets_total (q size : Nat) :
    ∀ (trace : List Timeval) (g : Globals),
      g.negtive_iat_count + g.exceed_max_iat_count + (buckets size g).sum + trace.length
        < UINT64_MOD →
      index_reaches_size q size trace g = false →
      ∃ g', read_packets q size trace g = some g' ∧
        g'.negtive_iat_count + g'.exceed_max_iat_count + (buckets size g').sum
          = g.negtive_iat_count + g.exceed_max_iat_count + (buckets size g).sum
            + trace.length := by
  intro trace
  induction trace with
  | nil => intro g _ _; exact ⟨g, rfl, by simp⟩
  | cons ts rest ih =>
    intro g hroom hfree
    simp only [List.length_cons] at hroom
    obtain ⟨gm, hgm⟩ := before_quantize_returns ts g
    obtain ⟨kn, ke, kq, -, -⟩ := before_quantize_keeps ts time_interval g gm hgm
    have hb : buckets size gm = buckets size g := by simp only [buckets, kq]
    simp only [index_reaches_size, hgm, Bool.or_eq_false_iff, Bool.and_eq_false_imp,
      decide_eq_true_eq, decide_eq_false_iff_not] at hfree
    obtain ⟨hidx, hrest⟩ := hfree
    have hstep := quantize_total q size gm (by rw [kn, ke, hb]; omega)
      (fun h => hidx h.1 h.2)
    rw [kn, ke, hb] at hstep
    obtain ⟨g', hread, htotal⟩ := ih (quantize q size gm) (by rw [hstep]; omega) hrest
    refine ⟨g', ?_, ?_⟩
    · simp only [read_packets, per_packet, hgm, Option.map_some', Option.some_bind, hread]
    · rw [htotal, hstep, List.length_cons]
      omega

/-- Conservation relative to the starting contents of the cells: every call
of `per_packet` returns with exactly one of `negtive_iat_count`, `exceed_max_iat_count` or one cell of
`quantized_iat_count` raised by one (as a `uint64_t`) and the other two
kinds of counter as they were; and for every trace of fewer than `2^64`
packets, read from program start with the first `iat_count_size` cells at
zero, in which no call computes a quantized index equal to
`iat_count_size`, the packet loop returns with `negtive_iat_count +
exceed_max_iat_count +` the sum of the first `iat_count_size` cells equal to
the number of packets, before `exceed_max_iat_count--`. -/
theorem samples_are_conserved (quantize_time_order iat_count_size : Nat)
    (mem : Nat → Nat) (trace : List Timeval)
    (hsize : trace.length < UINT64_MOD)
    (hzero : ∀ i, i < iat_count_size → mem i = 0)
    (hfree : index_reaches_size quantize_time_order iat_count_size trace
      (initial_globals mem) = false) :
    (∀ (ts : Timeval) (g : Globals),
      ∃ g', per_packet ts time_interval quantize_time_order iat_count_size g = some g' ∧
        ((g'.negtive_iat_count = u64_incr g.negtive_iat_count ∧
            g'.exceed_max_iat_count = g.exceed_max_iat_count ∧
            g'.quantized_iat_count = g.quantized_iat_count) ∨
          (g'.exceed_max_iat_count = u64_incr g.exceed_max_iat_count ∧
            g'.negtive_iat_count = g.negtive_iat_count ∧
            g'.quantized_iat_count = g.quantized_iat_count) ∨
          (∃ index, g'.quantized_iat_count
              = Function.update g.quantized_iat_count index
                  (u64_incr (g.quantized_iat_count index)) ∧
            g'.negtive_iat_count = g.negtive_iat_count ∧
            g'.exceed_max_iat_count = g.exceed_max_iat_count))) ∧
    ∃ g, read_packets quantize_time_order iat_count_size trace (initial_globals mem)
        = some g ∧
      g.negtive_iat_count + g.exceed_max_iat_count + (buckets iat_count_size g).sum
        = trace.length := by
  have hstart : (buckets iat_count_size (initial_globals mem)).sum = 0 := by
    apply List.sum_eq_zero
    intro x hx
    simp only [buckets, initial_globals, List.mem_map, List.mem_range] at hx
    obtain ⟨i, hi, hxi⟩ := hx
    rw [← hxi]
    exact hzero i hi
  constructor
  · intro ts g
    obtain ⟨gm, hgm⟩ := before_quantize_returns ts g
    obtain ⟨kn, ke, kq, -, -⟩ := before_quantize_keeps ts time_interval g gm hgm
    refine ⟨quantize quantize_time_order iat_count_size gm,
      by simp only [per_packet, hgm, Option.map_some'], ?_⟩
    rcases quantize_cases quantize_time_order iat_count_size gm with
      ⟨-, hn, he, hc⟩ | ⟨-, -, he, hn, hc⟩ | ⟨-, -, hc, hn, he⟩
    · left; exact ⟨by rw [hn, kn], by rw [he, ke], by rw [hc, kq]⟩
    · right; left; exact ⟨by rw [he, ke], by rw [hn, kn], by rw [hc, kq]⟩
    · right; right
      exact ⟨_, by rw [hc, kq], by rw [hn, kn], by rw [he, ke]⟩
  · obtain ⟨g, hread, htotal⟩ := read_packets_total quantize_time_order iat_count_size trace
      (initial_globals mem)
      (by rw [hstart]; simp only [initial_globals]; omega) hfree
    refine ⟨g, hread, ?_⟩
    rw [htotal, hstart]
    simp only [initial_globals]
    omega

theorem samples_are_conserved_witness :
    [(⟨0, 1000⟩ : Timeval), ⟨0, 1005⟩, ⟨0, 1025⟩, ⟨0, 1100⟩, ⟨0, 1090⟩].length
      < UINT64_MOD ∧
    (∀ i, i < 3 → zero_mem i = 0) ∧
    index_reaches_size 4 3 [⟨0, 1000⟩, ⟨0, 1005⟩, ⟨0, 1025⟩, ⟨0, 1100⟩, ⟨0, 1090⟩]
      (initial_globals zero_mem) = false ∧
    ((∀ (ts : Timeval) (g : Globals),
      ∃ g', per_packet ts time_interval 4 3 g = some g' ∧
        ((g'.negtive_iat_count = u64_incr g.negtive_iat_count ∧
            g'.exceed_max_iat_count = g.exceed_max_iat_count ∧
            g'.quantized_iat_count = g.quantized_iat_count) ∨
          (g'.exceed_max_iat_count = u64_incr g.exceed_max_iat_count ∧
            g'.negtive_iat_count = g.negtive_iat_count ∧
            g'.quantized_iat_count = g.quantized_iat_count) ∨
          (∃ index, g'.quantized_iat_count
              = Function.update g.quantized_iat_count index
                  (u64_incr (g.quantized_iat_count index)) ∧
            g'.negtive_iat_count = g.negtive_iat_count ∧
            g'.exceed_max_iat_count = g.exceed_max_iat_count))) ∧
    ∃ g, read_packets 4 3 [⟨0, 1000⟩, ⟨0, 1005⟩, ⟨0, 1025⟩, ⟨0, 1100⟩, ⟨0, 1090⟩]
        (initial_globals zero_mem) = some g ∧
      g.negtive_iat_count + g.exceed_max_iat_count + (buckets 3 g).sum
        = [(⟨0, 1000⟩ : Timeval), ⟨0, 1005⟩, ⟨0, 1025⟩, ⟨0, 1100⟩, ⟨0, 1090⟩].length) :=
  ⟨by decide, fun _ _ => rfl, by decide,
    samples_are_conserved 4 3 zero_mem
      [⟨0, 1000⟩, ⟨0, 1005⟩, ⟨0, 1025⟩, ⟨0, 1100⟩, ⟨0, 1090⟩]
      (by decide) (fun _ _ => rfl) (by decide)⟩

end PtQuantizeIat

namespace PtQuantizeIat

/-! ## The progress boundary over a trace -/

theorem per_packet_next (ts : Timeval) (ti : Int) (q size : Nat) (g : Globals) (r : Int)
    (hloop : progress_loop
      (progress_fuel ts.tv_sec (first_packet ts ti g).next_interval_time_sec) ti ts.tv_sec
      (first_packet ts ti g).next_interval_time_sec = some r) :
    ∃ gm g', before_quantize ts ti g = some gm ∧ gm.next_interval_time_sec = r ∧
      per_packet ts ti q size g = some g' ∧ g'.next_interval_time_sec = r := by
  have hb : before_quantize ts ti g
      = some (iat_calculation ts
          { first_packet ts ti g with next_interval_time_sec := r }) := by
    unfold before_quantize
    simp only [hloop]
  refine ⟨_, _, hb, by rw [iat_calculation_next], by rw [per_packet, hb]; rfl, ?_⟩
  rw [(quantize_keeps_time q size _).2.2, iat_calculation_next]

theorem per_packet_seeds (ts : Timeval) (q size : Nat) (g : Globals)
    (hpos : 0 < g.next_interval_time_sec ∨
      (g.next_interval_time_sec = 0 ∧ -10 < ts.tv_sec)) :
    ∃ gm g', before_quantize ts time_interval g = some gm ∧
      0 < gm.next_interval_time_sec ∧
      per_packet ts time_interval q size g = some g' ∧
      0 < g'.next_interval_time_sec := by
  obtain ⟨gm, hgm⟩ := before_quantize_returns ts g
  have hguard := guard_holds ts g gm hgm hpos
  refine ⟨gm, quantize q size gm, hgm, hguard, by simp only [per_packet, hgm, Option.map_some'],
    ?_⟩
  rw [(quantize_keeps_time q size gm).2.2]
  exact hguard

theorem read_packets_stays_seeded (q size : Nat) :
    ∀ (trace : List Timeval) (g : Globals), 0 < g.next_interval_time_sec →
      ∃ g', read_packets q size trace g = some g' ∧ 0 < g'.next_interval_time_sec := by
  intro trace
  induction trace with
  | nil => intro g h; exact ⟨g, rfl, h⟩
  | cons ts rest ih =>
    intro g h
    obtain ⟨-, g1, -, -, h1, p1⟩ := per_packet_seeds ts q size g (Or.inl h)
    obtain ⟨g2, h2, p2⟩ := ih g1 p1
    exact ⟨g2, by simp only [read_packets, h1, Option.some_bind, h2], p2⟩

/-- C21 (the code departs from the claim): from fresh globals, a first
packet stamped -10 s seeds `next_interval_time_sec = -10 + 10 = 0`, so the state after the first
call is still the unseeded one, the guard of line 458 was false in that call
(it classified the `iat_usec = 0` of program start), and the second call,
for a packet stamped 3 s, runs the first-packet branch again
(`initial_time_sec` goes from -10 to 3, the boundary to 13). -/
theorem unseeded_after_first_call :
    (read_packets 4 3 [⟨-10, 0⟩] (initial_globals zero_mem)).map
      (fun g => (g.next_interval_time_sec, g.initial_time_sec)) = some (0, -10) ∧
    classified_iat ⟨-10, 0⟩ time_interval (initial_globals zero_mem) = some 0 ∧
    (read_packets 4 3 [⟨-10, 0⟩, ⟨3, 0⟩] (initial_globals zero_mem)).map
      (fun g => (g.next_interval_time_sec, g.initial_time_sec)) = some (13, 3) := by
  decide

/-- What holds when the first boundary is not `0`: for every trace whose
first packet has `tv_sec > -10`, read from program start: `next_interval_time_sec` is `0` before the first call
and before no later call, so the first-packet branch runs in the first call
only; in every call the guard `next_interval_time_sec != 0` of line 458
holds and the value classified is computed in that call from its timestamp
and the stored previous one; and `next_interval_time_sec` is positive after
every call. -/
theorem seeded_after_first_call (quantize_time_order iat_count_size : Nat)
    (mem : Nat → Nat) (earlier : List Timeval) (ts : Timeval)
    (hfirst : ∀ t, (earlier ++ [ts]).head? = some t → -10 < t.tv_sec) :
    (initial_globals mem).next_interval_time_sec = 0 ∧
    ∃ g gm g',
      read_packets quantize_time_order iat_count_size earlier (initial_globals mem)
        = some g ∧
      (g.next_interval_time_sec = 0 ↔ earlier = []) ∧
      before_quantize ts time_interval g = some gm ∧
      gm.next_interval_time_sec ≠ 0 ∧
      gm.iat_usec
        = (ts.tv_sec - g.current_time_sec) * 1000000
          + (ts.tv_usec - g.current_time_usec) ∧
      per_packet ts time_interval quantize_time_order iat_count_size g = some g' ∧
      0 < g'.next_interval_time_sec := by
  refine ⟨rfl, ?_⟩
  cases earlier with
  | nil =>
    have hts : -10 < ts.tv_sec := hfirst ts (by simp)
    obtain ⟨gm, g', hgm, pm, hcall, p'⟩ :=
      per_packet_seeds ts quantize_time_order iat_count_size (initial_globals mem)
        (Or.inr ⟨rfl, hts⟩)
    exact ⟨initial_globals mem, gm, g', rfl, by simp [initial_globals], hgm, ne_of_gt pm,
      before_quantize_iat ts time_interval _ gm hgm (ne_of_gt pm), hcall, p'⟩
  | cons first rest =>
    have hf : -10 < first.tv_sec := hfirst first (by simp)
    obtain ⟨-, g1, -, -, h1, p1⟩ :=
      per_packet_seeds first quantize_time_order iat_count_size (initial_globals mem)
        (Or.inr ⟨rfl, hf⟩)
    obtain ⟨g, hread, pg⟩ :=
      read_packets_stays_seeded quantize_time_order iat_count_size rest g1 p1
    obtain ⟨gm, g', hgm, pm, hcall, p'⟩ :=
      per_packet_seeds ts quantize_time_order iat_count_size g (Or.inl pg)
    refine ⟨g, gm, g', by simp only [read_packets, h1, Option.some_bind, hread], ?_, hgm,
      ne_of_gt pm, before_quantize_iat ts time_interval _ gm hgm (ne_of_gt pm), hcall, p'⟩
    constructor
    · intro hz; omega
    · intro hnil; exact absurd hnil (List.cons_ne_nil _ _)

theorem seeded_after_first_call_witness :
    (∀ t : Timeval, ([(⟨0, 1000⟩ : Timeval), ⟨0, 1005⟩] ++ [(⟨0, 1025⟩ : Timeval)]).head?
        = some t → -10 < t.tv_sec) ∧
    (initial_globals zero_mem).next_interval_time_sec = 0 ∧
    ∃ g gm g',
      read_packets 4 3 [⟨0, 1000⟩, ⟨0, 1005⟩] (initial_globals zero_mem) = some g ∧
      (g.next_interval_time_sec = 0 ↔ [(⟨0, 1000⟩ : Timeval), ⟨0, 1005⟩] = []) ∧
      before_quantize ⟨0, 1025⟩ time_interval g = some gm ∧
      gm.next_interval_time_sec ≠ 0 ∧
      gm.iat_usec
        = ((⟨0, 1025⟩ : Timeval).tv_sec - g.current_time_sec) * 1000000
          + ((⟨0, 1025⟩ : Timeval).tv_usec - g.current_time_usec) ∧
      per_packet ⟨0, 1025⟩ time_interval 4 3 g = some g' ∧
      0 < g'.next_interval_time_sec :=
  ⟨by intro t h; simp at h; rw [← h]; decide,
    seeded_after_first_call 4 3 zero_mem [⟨0, 1000⟩, ⟨0, 1005⟩] ⟨0, 1025⟩
      (by intro t h; simp at h; rw [← h]; decide)⟩

end PtQuantizeIat

namespace PtQuantizeIat

/-! ## The seconds-only progress loop -/

theorem progress_loop_runs_spec (step tv_sec : Int) (hstep : 0 < step) :
    ∀ (fuel : Nat) (next : Int), (tv_sec - next).toNat < fuel →
      ∃ runs : Nat, progress_loop_runs fuel step tv_sec next = some runs ∧
        progress_loop fuel step tv_sec next = some (next + step * runs) ∧
        tv_sec ≤ next + step * runs ∧
        ∀ j : Nat, j < runs ↔ tv_sec > next + step * j := by
  intro fuel
  induction fuel with
  | zero => intro next h; omega
  | succ n ih =>
    intro next h
    by_cases hc : tv_sec > next
    · obtain ⟨k, hk, hr, hle, hiff⟩ := ih (next + step) (by omega)
      refine ⟨k + 1, ?_, ?_, ?_, ?_⟩
      · simp only [progress_loop_runs, hc, if_true, hk, Option.map_some']
      · simp only [progress_loop, hc, if_true, hr]
        push_cast
        congr 1
        ring
      · push_cast
        have : next + step * (k + 1) = next + step + step * k := by ring
        rw [this]
        exact hle
      · intro j
        cases j with
        | zero => simp only [Nat.zero_lt_succ, Nat.cast_zero, mul_zero, add_zero, true_iff]; exact hc
        | succ i =>
          have hi := hiff i
          have e : next + step * ((i + 1 : Nat) : Int) = next + step + step * (i : Int) := by
            push_cast; ring
          rw [e]
          constructor
          · intro hlt; exact hi.mp (by omega)
          · intro hgt; have := hi.mpr hgt; omega
    · refine ⟨0, ?_, ?_, ?_, ?_⟩
      · simp only [progress_loop_runs, hc, if_false]
      · simp only [progress_loop, hc, if_false, Nat.cast_zero, mul_zero, add_zero]
      · simp only [Nat.cast_zero, mul_zero, add_zero]; omega
      · intro j
        have hnn : 0 ≤ step * (j : Int) := by positivity
        constructor
        · intro hlt; omega
        · intro hgt; omega

theorem first_packet_next_of_sec (sec usec usec' : Int) (ti : Int) (g : Globals) :
    (first_packet ⟨sec, usec⟩ ti g).next_interval_time_sec
      = (first_packet ⟨sec, usec'⟩ ti g).next_interval_time_sec := by
  simp only [first_packet]
  split_ifs <;> rfl

theorem per_packet_progress (ts : Timeval) (q size : Nat) (g : Globals) :
    ∃ (g' : Globals) (runs : Nat),
      per_packet ts time_interval q size g = some g' ∧
      progress_loop_runs
          (progress_fuel ts.tv_sec (first_packet ts time_interval g).next_interval_time_sec)
          time_interval ts.tv_sec (first_packet ts time_interval g).next_interval_time_sec
        = some runs ∧
      g'.next_interval_time_sec
        = (first_packet ts time_interval g).next_interval_time_sec + 10 * runs ∧
      ts.tv_sec ≤ g'.next_interval_time_sec ∧
      (∀ j : Nat, j < runs ↔
        ts.tv_sec > (first_packet ts time_interval g).next_interval_time_sec + 10 * j) ∧
      (∀ usec, (per_packet ⟨ts.tv_sec, usec⟩ time_interval q size g).map
          (fun x => x.next_interval_time_sec) = some g'.next_interval_time_sec) := by
  obtain ⟨runs, hruns, hloop, hle, hiff⟩ :=
    progress_loop_runs_spec time_interval ts.tv_sec (by decide)
      (progress_fuel ts.tv_sec (first_packet ts time_interval g).next_interval_time_sec)
      (first_packet ts time_interval g).next_interval_time_sec
      (by unfold progress_fuel; omega)
  obtain ⟨-, g', -, -, hcall, hnext⟩ := per_packet_next ts time_interval q size g _ hloop
  refine ⟨g', runs, hcall, hruns, by rw [hnext]; rfl, by rw [hnext]; exact hle, hiff, ?_⟩
  intro usec
  have hsame := first_packet_next_of_sec ts.tv_sec usec ts.tv_usec time_interval g
  have hloop' : progress_loop
      (progress_fuel (⟨ts.tv_sec, usec⟩ : Timeval).tv_sec
        (first_packet ⟨ts.tv_sec, usec⟩ time_interval g).next_interval_time_sec)
      time_interval (⟨ts.tv_sec, usec⟩ : Timeval).tv_sec
      (first_packet ⟨ts.tv_sec, usec⟩ time_interval g).next_interval_time_sec
        = some ((first_packet ts time_interval g).next_interval_time_sec
            + time_interval * runs) := by
    rw [hsame]
    exact hloop
  obtain ⟨-, g'', -, -, hcall', hnext'⟩ :=
    per_packet_next ⟨ts.tv_sec, usec⟩ time_interval q size g _ hloop'
  rw [hcall', Option.map_some', hnext', hnext]

theorem read_packets_progression (q size : Nat) (base : Int) :
    ∀ (trace : List Timeval) (g : Globals),
      0 < g.next_interval_time_sec →
      (∃ m : Nat, g.next_interval_time_sec = base + 10 * m) →
      ∃ g', read_packets q size trace g = some g' ∧ 0 < g'.next_interval_time_sec ∧
        ∃ m : Nat, g'.next_interval_time_sec = base + 10 * m := by
  intro trace
  induction trace with
  | nil => intro g hp hm; exact ⟨g, rfl, hp, hm⟩
  | cons ts rest ih =>
    intro g hp hm
    obtain ⟨m, hm⟩ := hm
    obtain ⟨g1, runs, h1, -, hnext, -, -, -⟩ := per_packet_progress ts q size g
    have hfp : (first_packet ts time_interval g).next_interval_time_sec
        = g.next_interval_time_sec := by
      simp only [first_packet, ne_of_gt hp, if_false]
    rw [hfp] at hnext
    obtain ⟨g2, h2, p2, m2⟩ := ih g1 (by omega) ⟨m + runs, by rw [hnext, hm]; push_cast; ring⟩
    exact ⟨g2, by simp only [read_packets, h1, Option.some_bind, h2], p2, m2⟩

/-- C22: for every trace of packets with positive `tv_sec`, read from
program start, and for each of its calls of `per_packet` (the packets
`earlier` read before, the packet `ts` of the call): the call returns with
`ts.tv_sec ≤ next_interval_time_sec`; `next_interval_time_sec` minus the
`tv_sec + 10` of the first packet is a non-negative multiple of 10; the body of
the loop runs `runs` times, where `j < runs` exactly when `ts.tv_sec` is
above the boundary at entry to the loop advanced `j` times by 10, and the
boundary ends `10 * runs` above the one at entry; and the boundary after
the call is the same for every `tv_usec`. -/
theorem progress_boundary (quantize_time_order iat_count_size : Nat)
    (mem : Nat → Nat) (earlier : List Timeval) (ts : Timeval)
    (hpos : ∀ t, t ∈ earlier ++ [ts] → 0 < t.tv_sec) :
    ∃ (g g' : Globals) (runs : Nat),
      read_packets quantize_time_order iat_count_size earlier (initial_globals mem)
        = some g ∧
      per_packet ts time_interval quantize_time_order iat_count_size g = some g' ∧
      ts.tv_sec ≤ g'.next_interval_time_sec ∧
      (∀ first, (earlier ++ [ts]).head? = some first →
        ∃ m : Nat, g'.next_interval_time_sec - (first.tv_sec + 10) = 10 * m) ∧
      progress_loop_runs
          (progress_fuel ts.tv_sec (first_packet ts time_interval g).next_interval_time_sec)
          time_interval ts.tv_sec (first_packet ts time_interval g).next_interval_time_sec
        = some runs ∧
      g'.next_interval_time_sec
        = (first_packet ts time_interval g).next_interval_time_sec + 10 * runs ∧
      (∀ j : Nat, j < runs ↔
        ts.tv_sec > (first_packet ts time_interval g).next_interval_time_sec + 10 * j) ∧
      (∀ usec, (per_packet ⟨ts.tv_sec, usec⟩ time_interval quantize_time_order
          iat_count_size g).map (fun x => x.next_interval_time_sec)
        = some g'.next_interval_time_sec) := by
  cases earlier with
  | nil =>
    obtain ⟨g', runs, hcall, hruns, hnext, hle, hiff, husec⟩ :=
      per_packet_progress ts quantize_time_order iat_count_size (initial_globals mem)
    refine ⟨initial_globals mem, g', runs, rfl, hcall, hle, ?_, hruns, hnext, hiff, husec⟩
    intro first hfirst
    simp only [List.nil_append, List.head?_cons, Option.some.injEq] at hfirst
    subst hfirst
    refine ⟨runs, ?_⟩
    rw [hnext]
    simp only [first_packet, initial_globals, if_true, time_interval]
    ring
  | cons first rest =>
    have hf : 0 < first.tv_sec := hpos first (by simp)
    obtain ⟨g1, runs1, h1, -, hnext1, -, -, -⟩ :=
      per_packet_progress first quantize_time_order iat_count_size (initial_globals mem)
    have hseed : (first_packet first time_interval (initial_globals mem)).next_interval_time_sec
        = first.tv_sec + 10 := by
      simp only [first_packet, initial_globals, if_true, time_interval]
    rw [hseed] at hnext1
    obtain ⟨g, hread, pg, m, hm⟩ :=
      read_packets_progression quantize_time_order iat_count_size (first.tv_sec + 10) rest g1
        (by omega) ⟨runs1, hnext1⟩
    obtain ⟨g', runs, hcall, hruns, hnext, hle, hiff, husec⟩ :=
      per_packet_progress ts quantize_time_order iat_count_size g
    refine ⟨g, g', runs, by simp only [read_packets, h1, Option.some_bind, hread], hcall, hle,
      ?_, hruns, hnext, hiff, husec⟩
    intro first' hfirst'
    simp only [List.cons_append, List.head?_cons, Option.some.injEq] at hfirst'
    subst hfirst'
    have hfp : (first_packet ts time_interval g).next_interval_time_sec
        = g.next_interval_time_sec := by
      simp only [first_packet, ne_of_gt pg, if_false]
    refine ⟨m + runs, ?_⟩
    rw [hnext, hfp, hm]
    push_cast
    ring

theorem progress_boundary_witness :
    (∀ t : Timeval, t ∈ [(⟨3, 0⟩ : Timeval), ⟨5, 7⟩] ++ [(⟨38, 9⟩ : Timeval)] → 0 < t.tv_sec) ∧
    ∃ (g g' : Globals) (runs : Nat),
      read_packets 4 20 [⟨3, 0⟩, ⟨5, 7⟩] (initial_globals zero_mem) = some g ∧
      per_packet ⟨38, 9⟩ time_interval 4 20 g = some g' ∧
      (⟨38, 9⟩ : Timeval).tv_sec ≤ g'.next_interval_time_sec ∧
      (∀ first : Timeval, ([(⟨3, 0⟩ : Timeval), ⟨5, 7⟩] ++ [(⟨38, 9⟩ : Timeval)]).head? = some first →
        ∃ m : Nat, g'.next_interval_time_sec - (first.tv_sec + 10) = 10 * m) ∧
      progress_loop_runs
          (progress_fuel (⟨38, 9⟩ : Timeval).tv_sec
            (first_packet ⟨38, 9⟩ time_interval g).next_interval_time_sec)
          time_interval (⟨38, 9⟩ : Timeval).tv_sec
          (first_packet ⟨38, 9⟩ time_interval g).next_interval_time_sec
        = some runs ∧
      g'.next_interval_time_sec
        = (first_packet ⟨38, 9⟩ time_interval g).next_interval_time_sec + 10 * runs ∧
      (∀ j : Nat, j < runs ↔
        (⟨38, 9⟩ : Timeval).tv_sec
          > (first_packet ⟨38, 9⟩ time_interval g).next_interval_time_sec + 10 * j) ∧
      (∀ usec, (per_packet ⟨(⟨38, 9⟩ : Timeval).tv_sec, usec⟩ time_interval 4 20 g).map
          (fun x => x.next_interval_time_sec)
        = some g'.next_interval_time_sec) :=
  ⟨by decide, progress_boundary 4 20 zero_mem [⟨3, 0⟩, ⟨5, 7⟩] ⟨38, 9⟩ (by decide)⟩

end PtQuantizeIat

namespace PtQuantizeIat

/-! ## Classification under a false guard, and counters outside the histogram -/

/-- C1 (the code departs from the claim): with `quantize_time_order = 20`
and `iat_count_size = 20`, after a first packet stamped -20 s the boundary
is -10; the second packet, stamped -5 s, moves the boundary to `0`, so the
guard of line 458 is false and the call classifies the `iat_usec =
-20000000` left by the first call: `negtive_iat_count` goes from 1 to 2 and
the cell at index 14 stays at 0, although the delta between the two
timestamps is `15000000 ≥ 0` with index `15000000 >> 20 = 14 < 20`. -/
theorem bucketed_delta_counted_negative :
    (read_packets 20 20 [⟨-20, 0⟩] (initial_globals zero_mem)).bind
      (fun g1 => (per_packet ⟨-5, 0⟩ time_interval 20 20 g1).map
        (fun g2 => (g1.next_interval_time_sec, g2.next_interval_time_sec, g2.iat_usec)))
      = some (-10, 0, -20000000) ∧
    (read_packets 20 20 [⟨-20, 0⟩] (initial_globals zero_mem)).bind
      (fun g1 => (per_packet ⟨-5, 0⟩ time_interval 20 20 g1).map
        (fun g2 => (g1.negtive_iat_count, g2.negtive_iat_count,
          g1.quantized_iat_count 14, g2.quantized_iat_count 14)))
      = some (1, 2, 0, 0) ∧
    ((-5 : Int) - (-20)) * 1000000 + ((0 : Int) - 0) = 15000000 ∧
    ((15000000 : Int) >>> 20).toNat = 14 ∧ 14 < 20 := by
  decide

/-- C4 (the code departs from the claim): with `quantize_time_order = 4` and
`iat_count_size = 3`, a first packet stamped -10 s 500 us seeds the boundary
to `0`; for the second packet, stamped -10 s 100 us, the delta between the
timestamps is `-400 < 0`, but the guard of line 458 is false, the call
classifies the `iat_usec = 0` of program start, `negtive_iat_count` stays at
0 and the cell at index 0 goes from 1 to 2. -/
theorem negative_delta_counted_in_bucket :
    (read_packets 4 3 [⟨-10, 500⟩] (initial_globals zero_mem)).bind
      (fun g1 => (per_packet ⟨-10, 100⟩ time_interval 4 3 g1).map
        (fun g2 => (g1.next_interval_time_sec, g2.next_interval_time_sec, g2.iat_usec)))
      = some (0, 0, 0) ∧
    (read_packets 4 3 [⟨-10, 500⟩] (initial_globals zero_mem)).bind
      (fun g1 => (per_packet ⟨-10, 100⟩ time_interval 4 3 g1).map
        (fun g2 => (g1.negtive_iat_count, g2.negtive_iat_count,
          g1.quantized_iat_count 0, g2.quantized_iat_count 0)))
      = some (0, 0, 1, 2) ∧
    ((-10 : Int) - (-10)) * 1000000 + ((100 : Int) - 500) = -400 := by
  decide

/-- C24 (the code departs from the claim): with `quantize_time_order = 4`,
`iat_count_size = 3` and zeroed cells, after a packet at 0 s 1000 us the
packet at 0 s 1048 us has index `3 = iat_count_size`: the call raises
neither `negtive_iat_count` nor `exceed_max_iat_count` nor any of the three
buckets, it raises the cell past them.  And with the cells holding `7` when
`malloc` returns them, the trace 0 s 1000 us, 0 s 1005 us, in which no index
equals `iat_count_size`, ends with `negtive_iat_count +
exceed_max_iat_count +` the sum of the three buckets equal to `23`, not
`2`. -/
theorem sample_not_in_the_counters :
    (read_packets 4 3 [⟨0, 1000⟩] (initial_globals zero_mem)).bind
      (fun g1 => (per_packet ⟨0, 1048⟩ time_interval 4 3 g1).map
        (fun g2 => (g1.negtive_iat_count, g2.negtive_iat_count,
          g1.exceed_max_iat_count, g2.exceed_max_iat_count)))
      = some (0, 0, 1, 1) ∧
    (read_packets 4 3 [⟨0, 1000⟩] (initial_globals zero_mem)).bind
      (fun g1 => (per_packet ⟨0, 1048⟩ time_interval 4 3 g1).map
        (fun g2 => (buckets 3 g1, buckets 3 g2,
          g1.quantized_iat_count 3, g2.quantized_iat_count 3)))
      = some ([0, 0, 0], [0, 0, 0], 0, 1) ∧
    index_reaches_size 4 3 [⟨0, 1000⟩, ⟨0, 1005⟩] (initial_globals (fun _ => 7)) = false ∧
    (read_packets 4 3 [⟨0, 1000⟩, ⟨0, 1005⟩] (initial_globals (fun _ => 7))).map
      (fun g => (g.negtive_iat_count, g.exceed_max_iat_count, buckets 3 g))
      = some (0, 1, [8, 7, 7]) ∧
    0 + 1 + (8 + 7 + 7) = 23 := by
  decide

end PtQuantizeIat
